import Mathlib

/-!
# num_array: fixed-size recursive numeric arrays

A shallow embedding of `include/num_array.h`, `include/vector.h` and
`include/matrix.h` (namespace `tb::math`).

* `num_array<T, M, N...>` stores `sub_array data_[M]` with
  `sub_array = num_array<T, N...>`; the specialisation `num_array<T, N>` stores
  `T data_[N]`.  Here a shape is the list of extents, and `num_array T shape`
  unfolds to `M` elements of `num_array T Ns` for `shape = M :: Ns`; the
  elements of a rank-1 array are the scalars themselves (`num_array T [] = T`).
* Extents are template arguments, so an array value always has exactly the
  declared number of elements: the storage is a length-indexed vector.
* Runtime indices are `std::size_t` values and are not restricted by the type:
  accessors that receive them take natural numbers and can fail.
* Element conversions between arithmetic types (`T` to the common type `R`)
  are explicit functions.
* A default-constructed array (`num_array<R, M, P> result;`) has unspecified
  content: functions that fill one take that content as the argument
  `uninitialized`, and what is proved of them holds for every such content.
* Loops are folds over the indices `0 .. M-1` in order, each step performing the
  assignment of the loop body on the current array.
-/

namespace tb.math

/-- Ways an operation can fail at run time. -/
inductive Failure where
  /-- An exception `std::invalid_argument` was thrown: reported to the caller. -/
  | invalid_argument
  /-- A failed `assert(...)`: the program is aborted. -/
  | assertion_failure
  /-- An access outside `data_` that no check has caught (undefined behaviour). -/
  | out_of_bounds
  deriving DecidableEq

/-- The type `num_array<T, M, N...>` for `shape = [M, N...]`; the element type `T`
itself for the empty shape. -/
def num_array (T : Type) : List Nat → Type
  | [] => T
  | M :: Ns => Mathlib.Vector (num_array T Ns) M

/-- A full index tuple `(i, j, ...)` with every index inside its extent. -/
def Index : List Nat → Type
  | [] => Unit
  | M :: Ns => Fin M × Index Ns

/-- A full tuple of run-time indices `(i, j, ...)`, one `std::size_t` per extent. -/
def RawIndex : List Nat → Type
  | [] => Unit
  | _ :: Ns => Nat × RawIndex Ns

section accessors
variable {T : Type}

/-- The member `operator[]` at an index below the extent: `data_[i]`. -/
def subscript {M : Nat} {Ns : List Nat} (x : num_array T (M :: Ns)) (i : Fin M) :
    num_array T Ns :=
  Mathlib.Vector.get x i

/-- The assignment `x[i] = v` to one top-level element. -/
def assign {M : Nat} {Ns : List Nat} (x : num_array T (M :: Ns)) (i : Fin M)
    (v : num_array T Ns) : num_array T (M :: Ns) :=
  Mathlib.Vector.set x i v

/-- The member `operator()(i, j...)` on in-range indices: `data_[i](j...)`, down to a
scalar. -/
def call : (shape : List Nat) → num_array T shape → Index shape → T
  | [], x, _ => x
  | _ :: Ns, x, (i, js) => call Ns (subscript x i) js

/-- The member `operator()(i, j...)` on arbitrary run-time indices: `data_[i](j...)`
with no check; reading outside `data_` is `Failure.out_of_bounds`. -/
def call_raw : (shape : List Nat) → num_array T shape → RawIndex shape → Except Failure T
  | [], x, _ => Except.ok x
  | M :: Ns, x, (i, js) =>
    if h : i < M then call_raw Ns (subscript x ⟨i, h⟩) js
    else Except.error Failure.out_of_bounds

/-- The member `at(i, j...)`: `assert(i < this->size()); return data_[i](j...);`
(and `assert(i < this->size()); return data_[i];` at rank 1). -/
def checked_at (M : Nat) (Ns : List Nat) (x : num_array T (M :: Ns))
    (idx : RawIndex (M :: Ns)) : Except Failure T :=
  if h : idx.1 < M then call_raw Ns (subscript x ⟨idx.1, h⟩) idx.2
  else Except.error Failure.assertion_failure

/-- The run-time values of an in-range index tuple. -/
def Index.raw : (shape : List Nat) → Index shape → RawIndex shape
  | [], _ => ()
  | _ :: Ns, (i, js) => (i.val, Index.raw Ns js)

/-- The assignment `x(i, j...) = v` through the reference returned by `operator()`. -/
def call_assign : (shape : List Nat) → num_array T shape → Index shape → T → num_array T shape
  | [], _, _, v => v
  | _ :: Ns, x, (i, js), v => assign x i (call_assign Ns (subscript x i) js v)

end accessors

section constructors
variable {T U : Type}

/-- The converting copy constructor `num_array(const num_array<U, M, N...>& x)`:
`std::copy(x.begin(), x.end(), begin())`, every element converted from `U` to `T`
(each sub-array by the same constructor one rank lower). -/
def copy (conv : U → T) : (shape : List Nat) → num_array U shape → num_array T shape
  | [], x => conv x
  | _ :: Ns, x => Mathlib.Vector.map (copy conv Ns) x

/-- The value constructor `num_array(const T& x)`: `std::fill_n(data_, size(), x)`; at
rank above 1 each sub-array is itself value-constructed from `x`. -/
def value_construct : (shape : List Nat) → T → num_array T shape
  | [], x => x
  | M :: Ns, x => Mathlib.Vector.replicate M (value_construct Ns x)

/-- The rank-1 constructor `num_array<T, N>::num_array(const std::initializer_list<T>&)`:
one element is broadcast with `std::fill`, `N` elements are copied with `std::copy`,
any other count throws `std::invalid_argument`. -/
def list_construct (N : Nat) (init_list : List T) : Except Failure (num_array T [N]) :=
  if h1 : init_list.length = 1 then
    Except.ok (Mathlib.Vector.replicate N (init_list.get ⟨0, by omega⟩))
  else if hN : init_list.length = N then
    Except.ok ⟨init_list, hN⟩
  else
    Except.error Failure.invalid_argument

/-- The constructor
`num_array<T, M, N...>::num_array(const std::initializer_list<sub_array>&)` of rank 2
and above, in a build with assertions enabled:
`assert(init_list.size() == M); std::copy(init_list.begin(), init_list.end(), begin());`. -/
def list_construct_sub (M N : Nat) (Ns : List Nat) (init_list : List (num_array T (N :: Ns))) :
    Except Failure (num_array T (M :: N :: Ns)) :=
  if h : init_list.length = M then
    Except.ok ⟨init_list, h⟩
  else
    Except.error Failure.assertion_failure

end constructors

section arithmetic
variable {T U R : Type}

/-- The member `apply(func)`: `std::for_each_n(data_, size(), func)`, the elements
visited in index order and updated in place. -/
def num_array.apply {M : Nat} {Ns : List Nat} (func : num_array T Ns → num_array T Ns)
    (self : num_array T (M :: Ns)) : num_array T (M :: Ns) :=
  (List.finRange M).foldl (fun self i => assign self i (func (subscript self i))) self

/-- The member `apply(x, func)`: `func(*i, *j)` for the paired elements of `*this` and
`x`, in index order, updating `*this` in place. -/
def num_array.apply₂ {M : Nat} {Ns : List Nat} (x : num_array T (M :: Ns))
    (func : num_array T Ns → num_array T Ns → num_array T Ns)
    (self : num_array T (M :: Ns)) : num_array T (M :: Ns) :=
  (List.finRange M).foldl
    (fun self i => assign self i (func (subscript self i) (subscript x i))) self

/-- The compound scalar operators `operator+=`, `-=`, `*=`, `/=` taking `const T& rhs`
(with `rhs` not an element of `*this`): `apply([&](sub_array& x){ x op= rhs; })`,
down to the element operation `x op= rhs` on scalars.  The four members differ only
in the element operation `op`. -/
def compound_scalar (op : T → T → T) : (shape : List Nat) → num_array T shape → T →
    num_array T shape
  | [], x, rhs => op x rhs
  | _ :: Ns, self, rhs => num_array.apply (fun x => compound_scalar op Ns x rhs) self

/-- The compound element-wise operators `operator+=`, `-=` taking
`const num_array& rhs`:
`apply(rhs, [](sub_array& x, const sub_array& y){ x op= y; })`. -/
def compound_array (op : T → T → T) : (shape : List Nat) → num_array T shape →
    num_array T shape → num_array T shape
  | [], x, y => op x y
  | _ :: Ns, self, rhs => num_array.apply₂ rhs (fun x y => compound_array op Ns x y) self

/-- The member `operator+=(const T& rhs)`. -/
def operator_plus_eq [Add T] (shape : List Nat) (self : num_array T shape) (rhs : T) :
    num_array T shape :=
  compound_scalar (fun x r => x + r) shape self rhs

/-- The member `operator-=(const T& rhs)`. -/
def operator_minus_eq [Sub T] (shape : List Nat) (self : num_array T shape) (rhs : T) :
    num_array T shape :=
  compound_scalar (fun x r => x - r) shape self rhs

/-- The member `operator*=(const T& rhs)`. -/
def operator_times_eq [Mul T] (shape : List Nat) (self : num_array T shape) (rhs : T) :
    num_array T shape :=
  compound_scalar (fun x r => x * r) shape self rhs

/-- The member `operator/=(const T& rhs)`. -/
def operator_div_eq [Div T] (shape : List Nat) (self : num_array T shape) (rhs : T) :
    num_array T shape :=
  compound_scalar (fun x r => x / r) shape self rhs

/-- The member `operator+=(const num_array& rhs)`. -/
def operator_plus_eq_array [Add T] (shape : List Nat) (self rhs : num_array T shape) :
    num_array T shape :=
  compound_array (fun x y => x + y) shape self rhs

/-- The member `operator-=(const num_array& rhs)`. -/
def operator_minus_eq_array [Sub T] (shape : List Nat) (self rhs : num_array T shape) :
    num_array T shape :=
  compound_array (fun x y => x - y) shape self rhs

/-- Scalar addition `lhs + rhs`: `num_array<R, M, N...>(lhs) += rhs` with
`R = std::common_type<T, U>`; `cT` and `cU` are the conversions into `R`. -/
def operator_plus [Add R] (cT : T → R) (cU : U → R) (shape : List Nat)
    (lhs : num_array T shape) (rhs : U) : num_array R shape :=
  operator_plus_eq shape (copy cT shape lhs) (cU rhs)

/-- Scalar subtraction `lhs - rhs`: `num_array<R, M, N...>(lhs) -= rhs`. -/
def operator_minus [Sub R] (cT : T → R) (cU : U → R) (shape : List Nat)
    (lhs : num_array T shape) (rhs : U) : num_array R shape :=
  operator_minus_eq shape (copy cT shape lhs) (cU rhs)

/-- Scalar multiplication `lhs * rhs`: `num_array<R, M, N...>(lhs) *= rhs`. -/
def operator_times [Mul R] (cT : T → R) (cU : U → R) (shape : List Nat)
    (lhs : num_array T shape) (rhs : U) : num_array R shape :=
  operator_times_eq shape (copy cT shape lhs) (cU rhs)

/-- Commuted scalar multiplication `lhs * rhs` with the scalar on the left:
`num_array<R, M, N...>(rhs) *= lhs`. -/
def operator_times_commuted [Mul R] (cT : T → R) (cU : U → R) (shape : List Nat)
    (lhs : U) (rhs : num_array T shape) : num_array R shape :=
  operator_times_eq shape (copy cT shape rhs) (cU lhs)

/-- Scalar division `lhs / rhs`: `num_array<R, M, N...>(lhs) /= rhs`. -/
def operator_div [Div R] (cT : T → R) (cU : U → R) (shape : List Nat)
    (lhs : num_array T shape) (rhs : U) : num_array R shape :=
  operator_div_eq shape (copy cT shape lhs) (cU rhs)

/-- Element-wise addition `lhs + rhs`: `num_array<R, M, N...>(lhs) += rhs`; the right
operand reaches `operator+=(const num_array<R, M, N...>&)` through the converting
constructor. -/
def operator_plus_array [Add R] (cT : T → R) (cU : U → R) (shape : List Nat)
    (lhs : num_array T shape) (rhs : num_array U shape) : num_array R shape :=
  operator_plus_eq_array shape (copy cT shape lhs) (copy cU shape rhs)

/-- Element-wise subtraction `lhs - rhs`: `num_array<R, M, N...>(lhs) -= rhs`. -/
def operator_minus_array [Sub R] (cT : T → R) (cU : U → R) (shape : List Nat)
    (lhs : num_array T shape) (rhs : num_array U shape) : num_array R shape :=
  operator_minus_eq_array shape (copy cT shape lhs) (copy cU shape rhs)

end arithmetic

section comparison
variable {T U R : Type}

/-- The loop `for (i = 0; i < M; ++i) { if (differs i) { return false; } } return true;`
shared by the two `operator==` templates, over the indices still to visit. -/
def compare_loop {M : Nat} (differs : Fin M → Bool) : List (Fin M) → Bool
  | [] => true
  | i :: rest => if differs i then false else compare_loop differs rest

/-- Element-wise `operator==(lhs, rhs)` on two arrays: the test `lhs[i] != rhs[i]` is
`!(lhs[i] == rhs[i])` on sub-arrays (`operator!=`) and the built-in comparison, in the
common type `R`, on scalars. -/
def operator_eq [BEq R] (cT : T → R) (cU : U → R) : (shape : List Nat) → num_array T shape →
    num_array U shape → Bool
  | [], x, y => cT x == cU y
  | M :: Ns, lhs, rhs =>
    compare_loop (fun i => !(operator_eq cT cU Ns (subscript lhs i) (subscript rhs i)))
      (List.finRange M)

/-- Element-wise `operator!=(lhs, rhs)`: `!(lhs == rhs)`. -/
def operator_ne [BEq R] (cT : T → R) (cU : U → R) (shape : List Nat)
    (lhs : num_array T shape) (rhs : num_array U shape) : Bool :=
  !(operator_eq cT cU shape lhs rhs)

/-- Scalar `operator==(lhs, rhs)`: the test `lhs[i] != rhs` is `!(lhs[i] == rhs)` on
sub-arrays and the built-in comparison on scalars. -/
def operator_eq_scalar [BEq R] (cT : T → R) (cU : U → R) : (shape : List Nat) →
    num_array T shape → U → Bool
  | [], x, rhs => cT x == cU rhs
  | M :: Ns, lhs, rhs =>
    compare_loop (fun i => !(operator_eq_scalar cT cU Ns (subscript lhs i) rhs))
      (List.finRange M)

/-- Scalar `operator!=(lhs, rhs)`: `!(lhs == rhs)`. -/
def operator_ne_scalar [BEq R] (cT : T → R) (cU : U → R) (shape : List Nat)
    (lhs : num_array T shape) (rhs : U) : Bool :=
  !(operator_eq_scalar cT cU shape lhs rhs)

end comparison

section algebra
variable {T T1 T2 R : Type}

/-- The function `dot_product(v, w)` of `vector.h`: `result{0}`, then
`result += w[i] * v[i]` for `i = 0 .. N-1`, in the common type `R`. -/
def dot_product [Zero R] [Add R] [Mul R] (c1 : T1 → R) (c2 : T2 → R) (N : Nat)
    (v : num_array T1 [N]) (w : num_array T2 [N]) : R :=
  (List.finRange N).foldl
    (fun result i => result + c2 (subscript w i) * c1 (subscript v i)) 0

/-- The function `transpose(x)` of `matrix.h`: `result(j, i) = x(i, j)` for `i < M`,
`j < N`, written into the default-constructed `result`, whose initial content
`uninitialized` is unspecified. -/
def transpose (M N : Nat) (uninitialized : num_array T [N, M]) (x : num_array T [M, N]) :
    num_array T [N, M] :=
  (List.finRange M).foldl
    (fun result i =>
      (List.finRange N).foldl
        (fun result j => call_assign [N, M] result (j, i, ()) (call [M, N] x (i, j, ())))
        result)
    uninitialized

/-- The function `matrix_product(lhs, rhs)` of `matrix.h`: for `i < M`, `j < P`,
`R sum = 0; for (k < N) sum += lhs(i, k) * rhs(k, j); result(i, j) = sum;`, written
into the default-constructed `result` with unspecified initial content. -/
def matrix_product [Zero R] [Add R] [Mul R] (c1 : T1 → R) (c2 : T2 → R) (M N P : Nat)
    (uninitialized : num_array R [M, P]) (lhs : num_array T1 [M, N])
    (rhs : num_array T2 [N, P]) : num_array R [M, P] :=
  (List.finRange M).foldl
    (fun result i =>
      (List.finRange P).foldl
        (fun result j =>
          call_assign [M, P] result (i, j, ())
            ((List.finRange N).foldl
              (fun sum k => sum + c1 (call [M, N] lhs (i, k, ())) * c2 (call [N, P] rhs (k, j, ())))
              0))
        result)
    uninitialized

/-- The overload `operator*(lhs, rhs)` of two rank-2 arrays:
`return matrix_product(lhs, rhs);`. -/
def operator_times_matrix [Zero R] [Add R] [Mul R] (c1 : T1 → R) (c2 : T2 → R) (M N P : Nat)
    (uninitialized : num_array R [M, P]) (lhs : num_array T1 [M, N])
    (rhs : num_array T2 [N, P]) : num_array R [M, P] :=
  matrix_product c1 c2 M N P uninitialized lhs rhs

/-- The array `A = {{1,2,3}, {4,5,6}}` of `tests/matrix.cc`. -/
def test_A : num_array Int [2, 3] :=
  (⟨[(⟨[1, 2, 3], rfl⟩ : Mathlib.Vector Int 3), ⟨[4, 5, 6], rfl⟩], rfl⟩ :
    Mathlib.Vector (Mathlib.Vector Int 3) 2)

/-- The row `{1,2,3}` of `A`, used as a list element. -/
def test_row : num_array Int [3] := (⟨[1, 2, 3], rfl⟩ : Mathlib.Vector Int 3)

/-- The 3x2 array `{{1,4},{2,5},{3,6}}`. -/
def test_A_transposed : num_array Int [3, 2] :=
  (⟨[(⟨[1, 4], rfl⟩ : Mathlib.Vector Int 2), ⟨[2, 5], rfl⟩, ⟨[3, 6], rfl⟩], rfl⟩ :
    Mathlib.Vector (Mathlib.Vector Int 2) 3)

/-- The 2x2 array `{{14,32},{32,77}}`. -/
def test_A_product : num_array Int [2, 2] :=
  (⟨[(⟨[14, 32], rfl⟩ : Mathlib.Vector Int 2), ⟨[32, 77], rfl⟩], rfl⟩ :
    Mathlib.Vector (Mathlib.Vector Int 2) 2)

/-- Unary `operator-(rhs)`: `num_array<T, M, N...>(rhs).apply([](T& x){ x = -x; })`.
The lambda takes a scalar `T&` while `apply` passes it the top-level elements
(`std::for_each_n(data_, size(), func)`), so the body is well-typed only where the
top-level elements are scalars: the function exists at rank 1 and its instantiation at
rank 2 and above is rejected by the compiler. -/
def operator_neg [Neg T] (N : Nat) (rhs : num_array T [N]) : num_array T [N] :=
  num_array.apply (fun (x : T) => -x) (copy id [N] rhs)

/-- The library function `std::abs` on exact values. -/
def std_abs [Lattice T] [AddGroup T] (y : T) : T := |y|

/-- The function `abs(v)` of `num_array.h`: a default-constructed `result`, then
`result.apply(v, [](T& x, const T& y){ x = std::abs(y); })`.  As for unary minus the
lambda takes scalars, so the function exists at rank 1 only. -/
def num_array.abs [Lattice T] [AddGroup T] (N : Nat) (uninitialized : num_array T [N])
    (v : num_array T [N]) : num_array T [N] :=
  num_array.apply₂ v (fun (_ y : T) => (std_abs y : T)) uninitialized

/-- The function `cross_product(v, w)` of `vector.h`: the braced list
`{ v[1]*w[2] - v[2]*w[1], v[2]*w[0] - v[0]*w[2], v[0]*w[1] - v[1]*w[0] }` given to
the initializer-list constructor of `num_array<R, 3>`. -/
def cross_product [Sub R] [Mul R] (c1 : T1 → R) (c2 : T2 → R) (v : num_array T1 [3])
    (w : num_array T2 [3]) : Except Failure (num_array R [3]) :=
  list_construct 3
    [c1 (subscript v 1) * c2 (subscript w 2) - c1 (subscript v 2) * c2 (subscript w 1),
     c1 (subscript v 2) * c2 (subscript w 0) - c1 (subscript v 0) * c2 (subscript w 2),
     c1 (subscript v 0) * c2 (subscript w 1) - c1 (subscript v 1) * c2 (subscript w 0)]

/-- The function `outer_product(v, w)` of `vector.h`:
`result[m] = w * static_cast<T2>(v[m])` for `m < N1`.  The product is the scalar
`operator*` of `num_array<T2, N2>` with a `T2`, so it is computed in `T2`; the row is
then converted to `R` by the assignment.  `cast` is `static_cast<T2>` on `T1` and `c2`
the conversion of `T2` to `R`. -/
def outer_product [Mul T2] (cast : T1 → T2) (c2 : T2 → R) (N1 N2 : Nat)
    (uninitialized : num_array R [N1, N2]) (v : num_array T1 [N1]) (w : num_array T2 [N2]) :
    num_array R [N1, N2] :=
  (List.finRange N1).foldl
    (fun result m =>
      assign result m (copy c2 [N2] (operator_times id id [N2] w (cast (subscript v m)))))
    uninitialized

/-- The function `det(x)` of `matrix.h`: `(x(0,0) * x(1,1)) - (x(0,1) * x(1,0))`. -/
def det [Sub T] [Mul T] (x : num_array T [2, 2]) : T :=
  (call [2, 2] x (0, 0, ()) * call [2, 2] x (1, 1, ())) -
    (call [2, 2] x (0, 1, ()) * call [2, 2] x (1, 0, ()))

/-- The function `vector_matrix_product(lhs, rhs)` of `matrix.h`: for `j < N`,
`R sum = 0; for (k < M) sum += lhs[k] * rhs(k, j); result[j] = sum;`. -/
def vector_matrix_product [Zero R] [Add R] [Mul R] (c1 : T1 → R) (c2 : T2 → R) (M N : Nat)
    (uninitialized : num_array R [N]) (lhs : num_array T1 [M]) (rhs : num_array T2 [M, N]) :
    num_array R [N] :=
  (List.finRange N).foldl
    (fun result j =>
      assign result j
        ((List.finRange M).foldl
          (fun (sum : R) k => sum + c1 (subscript lhs k) * c2 (call [M, N] rhs (k, j, ())))
          (0 : R)))
    uninitialized

/-- The function `matrix_vector_product(lhs, rhs)` of `matrix.h`: for `i < M`,
`result[i] = dot_product(lhs[i], rhs);`. -/
def matrix_vector_product [Zero R] [Add R] [Mul R] (c1 : T1 → R) (c2 : T2 → R) (M N : Nat)
    (uninitialized : num_array R [M]) (lhs : num_array T1 [M, N]) (rhs : num_array T2 [N]) :
    num_array R [M] :=
  (List.finRange M).foldl
    (fun result i => assign result i (dot_product c1 c2 N (subscript lhs i) rhs : R))
    uninitialized

/-- The overload `operator*(lhs, rhs)` of a rank-1 and a rank-2 array:
`return vector_matrix_product(lhs, rhs);`. -/
def operator_times_vector_matrix [Zero R] [Add R] [Mul R] (c1 : T1 → R) (c2 : T2 → R)
    (M N : Nat) (uninitialized : num_array R [N]) (lhs : num_array T1 [M])
    (rhs : num_array T2 [M, N]) : num_array R [N] :=
  vector_matrix_product c1 c2 M N uninitialized lhs rhs

/-- The overload `operator*(lhs, rhs)` of a rank-2 and a rank-1 array:
`return matrix_vector_product(lhs, rhs);`. -/
def operator_times_matrix_vector [Zero R] [Add R] [Mul R] (c1 : T1 → R) (c2 : T2 → R)
    (M N : Nat) (uninitialized : num_array R [M]) (lhs : num_array T1 [M, N])
    (rhs : num_array T2 [N]) : num_array R [M] :=
  matrix_vector_product c1 c2 M N uninitialized lhs rhs

/-- The conversion `static_cast<int>` of a fractional value: truncation toward zero. -/
def truncate (q : ℚ) : ℤ := Int.tdiv q.num q.den

/-- Division of exact integers as C++ performs it: the quotient truncated toward
zero. -/
def truncating_division : Div Int := ⟨Int.tdiv⟩

/-- The vectors `v1 = {1,0,0}` and `v2 = {0,1,0}` of `test_dot_product`. -/
def test_v1 : num_array Int [3] := (⟨[1, 0, 0], rfl⟩ : Mathlib.Vector Int 3)

/-- The vector `v2 = {0,1,0}` of `test_dot_product`. -/
def test_v2 : num_array Int [3] := (⟨[0, 1, 0], rfl⟩ : Mathlib.Vector Int 3)

/-- The vector `v = {3,4,5}` of `test_outer_product`. -/
def test_v : num_array Int [3] := (⟨[3, 4, 5], rfl⟩ : Mathlib.Vector Int 3)

/-- The vector `w = {1,2}` of `test_outer_product`. -/
def test_w : num_array Int [2] := (⟨[1, 2], rfl⟩ : Mathlib.Vector Int 2)

/-- The array `vw = {{3,6},{4,8},{5,10}}` of `test_outer_product`. -/
def test_vw : num_array Int [3, 2] :=
  (⟨[(⟨[3, 6], rfl⟩ : Mathlib.Vector Int 2), ⟨[4, 8], rfl⟩, ⟨[5, 10], rfl⟩], rfl⟩ :
    Mathlib.Vector (Mathlib.Vector Int 2) 3)

/-- The array `wv = {{3,4,5},{6,8,10}}` of `test_outer_product`. -/
def test_wv : num_array Int [2, 3] :=
  (⟨[(⟨[3, 4, 5], rfl⟩ : Mathlib.Vector Int 3), ⟨[6, 8, 10], rfl⟩], rfl⟩ :
    Mathlib.Vector (Mathlib.Vector Int 3) 2)

/-- The one-element fractional vector `{0.5}`. -/
def test_half : num_array ℚ [1] :=
  (⟨[(⟨1, 2, by decide, by decide⟩ : ℚ)], rfl⟩ : Mathlib.Vector ℚ 1)

/-- The one-element integral vector `{2}`. -/
def test_two : num_array Int [1] := (⟨[2], rfl⟩ : Mathlib.Vector Int 1)

/-- The one-element 32-bit unsigned vector `{2147483648}`; `Fin (2 ^ 32)` has the
arithmetic of `unsigned`, every result reduced modulo `2 ^ 32`. -/
def test_unsigned : num_array (Fin (2 ^ 32)) [1] :=
  (⟨[2147483648], rfl⟩ : Mathlib.Vector (Fin (2 ^ 32)) 1)

/-- The 32-bit unsigned array `{0,1,2,3}`, filled as `A[i] = i` in `test_operators`. -/
def test_unsigned_iota : num_array (Fin (2 ^ 32)) [4] :=
  (⟨[0, 1, 2, 3], rfl⟩ : Mathlib.Vector (Fin (2 ^ 32)) 4)

/-- The compound scalar operators `operator+=`, `-=`, `*=`, `/=` of the rank-1 class when
the argument `const T& rhs` is bound to the element `(*this)[k]` of the array itself, as
in `v *= v[k]`: `apply([&](T& x){ x op= rhs; })` runs `std::for_each_n` over the
elements in index order, and each step reads `rhs` through the reference, that is the
current content of `data_[k]`. -/
def compound_scalar_by_reference (op : T → T → T) (N : Nat) (self : num_array T [N])
    (k : Fin N) : num_array T [N] :=
  (List.finRange N).foldl
    (fun self i => assign self i (op (subscript self i) (subscript self k))) self

/-- The function `triple_product(u, v, w)` of `vector.h`:
`return dot_product(u, cross_product(v, w));`.  `c2`, `c3` convert into the element
type `S` of the cross product, `c1` and `cS` into the result type `R`; a failure of the
construction inside `cross_product` would propagate. -/
def triple_product {T3 S : Type} [Sub S] [Mul S] [Zero R] [Add R] [Mul R] (c1 : T1 → R)
    (cS : S → R) (c2 : T2 → S) (c3 : T3 → S) (u : num_array T1 [3]) (v : num_array T2 [3])
    (w : num_array T3 [3]) : Except Failure R :=
  match cross_product c2 c3 v w with
  | Except.ok c => Except.ok (dot_product c1 cS 3 u c)
  | Except.error e => Except.error e

/-- The conversion of an `int` to the `w`-bit unsigned type: the value reduced modulo
`2 ^ w`. -/
def int_to_unsigned (w : Nat) (z : Int) : Fin (2 ^ w) :=
  ⟨(z % ((2 ^ w : Nat) : Int)).toNat, by
    have hpos : (0 : Int) < ((2 ^ w : Nat) : Int) := by exact_mod_cast Nat.two_pow_pos w
    have h1 := Int.emod_nonneg z (ne_of_gt hpos)
    have h2 := Int.emod_lt_of_pos z hpos
    omega⟩

/-- The two-element array `{2,3}`. -/
def test_pair : num_array Int [2] := (⟨[2, 3], rfl⟩ : Mathlib.Vector Int 2)

/-- The conversion of a `w`-bit unsigned value to `int` when `int` represents every
value of the unsigned type: the value itself. -/
def unsigned_to_int (w : Nat) (a : Fin (2 ^ w)) : Int := (a.val : Int)

/-- The one-element 16-bit unsigned array `{40000}`. -/
def test_ushort : num_array (Fin (2 ^ 16)) [1] :=
  (⟨[40000], rfl⟩ : Mathlib.Vector (Fin (2 ^ 16)) 1)

/-- The 16-bit unsigned array `{0,1,2,3}`, filled as `A[i] = i` in `test_operators`. -/
def test_ushort_iota : num_array (Fin (2 ^ 16)) [4] :=
  (⟨[0, 1, 2, 3], rfl⟩ : Mathlib.Vector (Fin (2 ^ 16)) 4)

end algebra

/-! ## Lemmas on storage and loops -/

section storage
variable {T U : Type} {M : Nat} {Ns : List Nat}

theorem subscript_assign_same (x : num_array T (M :: Ns)) (i : Fin M) (v : num_array T Ns) :
    subscript (assign x i v) i = v :=
  Mathlib.Vector.get_set_same x i v

theorem subscript_assign_ne (x : num_array T (M :: Ns)) {i j : Fin M} (h : i ≠ j)
    (v : num_array T Ns) : subscript (assign x i v) j = subscript x j :=
  Mathlib.Vector.get_set_of_ne h v

theorem subscript_assign (x : num_array T (M :: Ns)) (i j : Fin M) (v : num_array T Ns) :
    subscript (assign x i v) j = if j = i then v else subscript x j := by
  by_cases h : j = i
  · subst h
    simp [subscript_assign_same]
  · simp [h, subscript_assign_ne x (Ne.symm h)]

theorem ext_subscript {x y : num_array T (M :: Ns)}
    (h : ∀ i : Fin M, subscript x i = subscript y i) : x = y :=
  Mathlib.Vector.ext h

/-- A loop over distinct indices whose step `i` rewrites element `i` only, as a function
of its current value, leaves each visited element rewritten once and the others as
they were. -/
theorem subscript_foldl_rowwise (step : Fin M → num_array T (M :: Ns) → num_array T (M :: Ns))
    (F : Fin M → num_array T Ns → num_array T Ns)
    (hstep : ∀ i r j, subscript (step i r) j = if j = i then F i (subscript r j)
      else subscript r j)
    (l : List (Fin M)) (hl : l.Nodup) (r : num_array T (M :: Ns)) (j : Fin M) :
    subscript (l.foldl (fun r i => step i r) r) j =
      if j ∈ l then F j (subscript r j) else subscript r j := by
  induction l generalizing r with
  | nil => simp
  | cons a l ih =>
    have hnd := List.nodup_cons.mp hl
    rw [List.foldl_cons, ih hnd.2, hstep]
    by_cases hja : j = a
    · subst hja
      simp [hnd.1]
    · simp [hja]

/-- A loop whose every step rewrites each element `j` as a function of its current value
acts on element `j` as the composed rewrites. -/
theorem subscript_foldl_columnwise {ι : Type}
    (step : ι → num_array T (M :: Ns) → num_array T (M :: Ns))
    (G : ι → Fin M → num_array T Ns → num_array T Ns)
    (hstep : ∀ i r j, subscript (step i r) j = G i j (subscript r j))
    (l : List ι) (r : num_array T (M :: Ns)) (j : Fin M) :
    subscript (l.foldl (fun r i => step i r) r) j =
      l.foldl (fun row i => G i j row) (subscript r j) := by
  induction l generalizing r with
  | nil => rfl
  | cons a l ih => rw [List.foldl_cons, ih, hstep, List.foldl_cons]

theorem subscript_apply (func : num_array T Ns → num_array T Ns) (x : num_array T (M :: Ns))
    (i : Fin M) : subscript (num_array.apply func x) i = func (subscript x i) := by
  unfold num_array.apply
  rw [subscript_foldl_rowwise (fun i r => assign r i (func (subscript r i)))
    (fun _ s => func s) _ _ (List.nodup_finRange M)]
  · simp
  · intro i r j
    rw [subscript_assign]
    by_cases h : j = i
    · subst h; simp
    · simp [h]

theorem subscript_apply₂ (y : num_array T (M :: Ns))
    (func : num_array T Ns → num_array T Ns → num_array T Ns) (x : num_array T (M :: Ns))
    (i : Fin M) :
    subscript (num_array.apply₂ y func x) i = func (subscript x i) (subscript y i) := by
  unfold num_array.apply₂
  rw [subscript_foldl_rowwise (fun i r => assign r i (func (subscript r i) (subscript y i)))
    (fun i s => func s (subscript y i)) _ _ (List.nodup_finRange M)]
  · simp
  · intro i r j
    rw [subscript_assign]
    by_cases h : j = i
    · subst h; simp
    · simp [h]

theorem ext_call : ∀ (shape : List Nat) (x y : num_array T shape),
    (∀ idx : Index shape, call shape x idx = call shape y idx) → x = y
  | [], _, _, h => h ()
  | _ :: Ns, _, _, h =>
    ext_subscript (fun i => ext_call Ns _ _ (fun js => h (i, js)))

theorem call_copy (conv : U → T) : ∀ (shape : List Nat) (x : num_array U shape)
    (idx : Index shape), call shape (copy conv shape x) idx = conv (call shape x idx)
  | [], _, _ => rfl
  | _ :: Ns, x, (i, js) => by
    have h : subscript (copy conv (_ :: Ns) x) i = copy conv Ns (subscript x i) :=
      Mathlib.Vector.get_map x (copy conv Ns) i
    simp only [call]
    rw [h, call_copy conv Ns]

theorem call_value_construct (v : T) : ∀ (shape : List Nat) (idx : Index shape),
    call shape (value_construct shape v) idx = v
  | [], _ => rfl
  | M :: Ns, (i, js) => by
    have h : subscript (value_construct (M :: Ns) v) i = value_construct Ns v :=
      Mathlib.Vector.get_replicate _ i
    simp only [call]
    rw [h, call_value_construct v Ns]

theorem call_compound_scalar (op : T → T → T) (rhs : T) : ∀ (shape : List Nat)
    (x : num_array T shape) (idx : Index shape),
    call shape (compound_scalar op shape x rhs) idx = op (call shape x idx) rhs
  | [], _, _ => rfl
  | _ :: Ns, x, (i, js) => by
    simp only [call, compound_scalar]
    rw [subscript_apply, call_compound_scalar op rhs Ns]

theorem call_compound_array (op : T → T → T) : ∀ (shape : List Nat)
    (x y : num_array T shape) (idx : Index shape),
    call shape (compound_array op shape x y) idx = op (call shape x idx) (call shape y idx)
  | [], _, _, _ => rfl
  | _ :: Ns, x, y, (i, js) => by
    simp only [call, compound_array]
    rw [subscript_apply₂, call_compound_array op Ns]

end storage

section comparison_lemmas
variable {T U R : Type}

theorem compare_loop_eq_true {M : Nat} (differs : Fin M → Bool) (l : List (Fin M)) :
    compare_loop differs l = true ↔ ∀ i ∈ l, differs i = false := by
  induction l with
  | nil => simp [compare_loop]
  | cons a l ih =>
    unfold compare_loop
    by_cases h : differs a = true
    · simp [h]
    · simp [h, ih]

theorem operator_eq_eq_true [BEq R] (cT : T → R) (cU : U → R) : ∀ (shape : List Nat)
    (x : num_array T shape) (y : num_array U shape),
    operator_eq cT cU shape x y = true ↔
      ∀ idx : Index shape, (cT (call shape x idx) == cU (call shape y idx)) = true
  | [], x, y => by
    constructor
    · intro h _; exact h
    · intro h; exact h ()
  | M :: Ns, x, y => by
    unfold operator_eq
    rw [compare_loop_eq_true]
    constructor
    · intro h idx
      obtain ⟨i, js⟩ := idx
      have hi := h i (List.mem_finRange i)
      simp only [Bool.not_eq_false_eq_eq_true] at hi
      exact (operator_eq_eq_true cT cU Ns _ _).mp hi js
    · intro h i _
      simp only [Bool.not_eq_false_eq_eq_true]
      exact (operator_eq_eq_true cT cU Ns _ _).mpr (fun js => h (i, js))

theorem operator_eq_scalar_eq_true [BEq R] (cT : T → R) (cU : U → R) (s : U) :
    ∀ (shape : List Nat) (x : num_array T shape),
    operator_eq_scalar cT cU shape x s = true ↔
      ∀ idx : Index shape, (cT (call shape x idx) == cU s) = true
  | [], x => by
    constructor
    · intro h _; exact h
    · intro h; exact h ()
  | M :: Ns, x => by
    unfold operator_eq_scalar
    rw [compare_loop_eq_true]
    constructor
    · intro h idx
      obtain ⟨i, js⟩ := idx
      have hi := h i (List.mem_finRange i)
      simp only [Bool.not_eq_false_eq_eq_true] at hi
      exact (operator_eq_scalar_eq_true cT cU s Ns _).mp hi js
    · intro h i _
      simp only [Bool.not_eq_false_eq_eq_true]
      exact (operator_eq_scalar_eq_true cT cU s Ns _).mpr (fun js => h (i, js))

end comparison_lemmas

/-! ## Equality and arithmetic operators -/

section operators
variable {T U R : Type}

/-- C1. For arrays `A`, `B` of one shape and a scalar `s`: `A == B` is true iff the
elements at every full index tuple compare equal, `A == s` is true iff every element
compares equal to `s`, and `A != B`, `A != s` are the negations of `A == B`, `A == s`.
Elements are compared with their own `==`, in the common type. -/
theorem equality_is_elementwise [BEq R] (cT : T → R) (cU : U → R) (M : Nat) (Ns : List Nat)
    (A : num_array T (M :: Ns)) (B : num_array U (M :: Ns)) (s : U) :
    (operator_eq cT cU (M :: Ns) A B = true ↔
      ∀ idx : Index (M :: Ns),
        (cT (call (M :: Ns) A idx) == cU (call (M :: Ns) B idx)) = true) ∧
    (operator_eq_scalar cT cU (M :: Ns) A s = true ↔
      ∀ idx : Index (M :: Ns), (cT (call (M :: Ns) A idx) == cU s) = true) ∧
    operator_ne cT cU (M :: Ns) A B = !(operator_eq cT cU (M :: Ns) A B) ∧
    operator_ne_scalar cT cU (M :: Ns) A s = !(operator_eq_scalar cT cU (M :: Ns) A s) :=
  ⟨operator_eq_eq_true cT cU (M :: Ns) A B, operator_eq_scalar_eq_true cT cU s (M :: Ns) A,
    rfl, rfl⟩

/-- C2. For an array `A`, a scalar `s` and a full index tuple `idx`:
`(A + s)(idx) = A(idx) + s`, `(A - s)(idx) = A(idx) - s`, `(A * s)(idx) = A(idx) * s`,
for a non-zero divisor `(A / s)(idx) = A(idx) / s`, and `s * A` is the array `A * s`;
operands are converted to the common type.  The operators are functions of the values
of `A` and `s` and return the new array, so `A` is not modified. -/
theorem scalar_operators_elementwise [Add R] [Sub R] [Mul R] [Div R] [Zero R]
    (cT : T → R) (cU : U → R) (M : Nat) (Ns : List Nat) (A : num_array T (M :: Ns)) (s : U)
    (idx : Index (M :: Ns)) :
    call (M :: Ns) (operator_plus cT cU (M :: Ns) A s) idx = cT (call (M :: Ns) A idx) + cU s ∧
    call (M :: Ns) (operator_minus cT cU (M :: Ns) A s) idx = cT (call (M :: Ns) A idx) - cU s ∧
    call (M :: Ns) (operator_times cT cU (M :: Ns) A s) idx = cT (call (M :: Ns) A idx) * cU s ∧
    (cU s ≠ 0 →
      call (M :: Ns) (operator_div cT cU (M :: Ns) A s) idx = cT (call (M :: Ns) A idx) / cU s) ∧
    operator_times_commuted cT cU (M :: Ns) s A = operator_times cT cU (M :: Ns) A s := by
  refine ⟨?_, ?_, ?_, ?_, rfl⟩
  · unfold operator_plus operator_plus_eq
    rw [call_compound_scalar, call_copy]
  · unfold operator_minus operator_minus_eq
    rw [call_compound_scalar, call_copy]
  · unfold operator_times operator_times_eq
    rw [call_compound_scalar, call_copy]
  · intro _
    unfold operator_div operator_div_eq
    rw [call_compound_scalar, call_copy]

/-- Witness for C2: the 2x3 integer array `{{1,2,3},{4,5,6}}`, the scalar 2 and the
index `(1, 2)`. -/
theorem scalar_operators_elementwise_witness :
    call [2, 3] (operator_plus id id [2, 3] test_A (2 : Int)) (1, 2, ()) = 8 ∧
    call [2, 3] (operator_minus id id [2, 3] test_A (2 : Int)) (1, 2, ()) = 4 ∧
    call [2, 3] (operator_times id id [2, 3] test_A (2 : Int)) (1, 2, ()) = 12 ∧
    ((2 : Int) ≠ 0 ∧ call [2, 3] (operator_div id id [2, 3] test_A (2 : Int)) (1, 2, ()) = 3) ∧
    operator_times_commuted id id [2, 3] (2 : Int) test_A =
      operator_times id id [2, 3] test_A (2 : Int) :=
  have h := scalar_operators_elementwise (id : Int → Int) (id : Int → Int) 2 [3] test_A 2
    (1, 2, ())
  ⟨h.1, h.2.1, h.2.2.1, ⟨by decide, h.2.2.2.1 (by decide)⟩, h.2.2.2.2⟩

/-- C3. For arrays `A`, `B` of one shape with element types `T` and `U`, and a full
index tuple `idx`: `(A + B)(idx) = A(idx) + B(idx)` and `(A - B)(idx) = A(idx) - B(idx)`,
both elements converted to the common type `R`, the element type of the result.  The
operators are functions of the values of `A` and `B`, which are not modified. -/
theorem array_operators_elementwise [Add R] [Sub R] (cT : T → R) (cU : U → R) (M : Nat)
    (Ns : List Nat) (A : num_array T (M :: Ns)) (B : num_array U (M :: Ns))
    (idx : Index (M :: Ns)) :
    call (M :: Ns) (operator_plus_array cT cU (M :: Ns) A B) idx =
      cT (call (M :: Ns) A idx) + cU (call (M :: Ns) B idx) ∧
    call (M :: Ns) (operator_minus_array cT cU (M :: Ns) A B) idx =
      cT (call (M :: Ns) A idx) - cU (call (M :: Ns) B idx) := by
  constructor
  · unfold operator_plus_array operator_plus_eq_array
    rw [call_compound_array, call_copy, call_copy]
  · unfold operator_minus_array operator_minus_eq_array
    rw [call_compound_array, call_copy, call_copy]

end operators

/-! ## Construction -/

section construction
variable {T : Type}

/-- C4. For the rank-1 array type of length `N` and an initializer list `L`: with
`|L| = N` construction succeeds and element `i` is `L[i]`; with `|L| = 1` it succeeds
and gives the array value-constructed from `L[0]`; with any other length it fails with
`invalid_argument` and yields no array. -/
theorem list_construct_count_rule (N : Nat) (L : List T) :
    (∀ h : L.length = N, ∃ A : num_array T [N], list_construct N L = Except.ok A ∧
      ∀ i : Fin N, subscript A i = L.get (i.cast h.symm)) ∧
    (∀ h : L.length = 1,
      list_construct N L = Except.ok (value_construct [N] (L.get ⟨0, by omega⟩))) ∧
    (L.length ≠ N → L.length ≠ 1 →
      list_construct N L = Except.error Failure.invalid_argument) := by
  refine ⟨?_, ?_, ?_⟩
  · intro h
    by_cases h1 : L.length = 1
    · refine ⟨_, dif_pos h1, ?_⟩
      intro i
      have hi : (i : Nat) = 0 := by have := i.isLt; omega
      have hget : subscript (Mathlib.Vector.replicate N (L.get ⟨0, by omega⟩) :
          num_array T [N]) i = L.get ⟨0, by omega⟩ := Mathlib.Vector.get_replicate _ i
      rw [hget]
      congr 1
      exact Fin.ext hi.symm
    · refine ⟨(⟨L, h⟩ : Mathlib.Vector T N), ?_, ?_⟩
      · unfold list_construct
        rw [dif_neg h1, dif_pos h]
      · intro i
        rfl
  · intro h
    exact dif_pos h
  · intro hN h1
    unfold list_construct
    rw [dif_neg h1, dif_neg hN]

/-- Witness for C4: length 3 built from `{3,4,5}`, from `{7}` and from `{1,2}`. -/
theorem list_construct_count_rule_witness :
    (∃ A : num_array Int [3], list_construct 3 [3, 4, 5] = Except.ok A ∧
      ∀ i : Fin 3, subscript A i = [(3 : Int), 4, 5].get (i.cast rfl)) ∧
    list_construct 3 [(7 : Int)] = Except.ok (value_construct [3] 7) ∧
    list_construct 3 [(1 : Int), 2] = Except.error Failure.invalid_argument :=
  ⟨(list_construct_count_rule 3 [(3 : Int), 4, 5]).1 rfl,
    (list_construct_count_rule 3 [(7 : Int)]).2.1 rfl,
    (list_construct_count_rule 3 [(1 : Int), 2]).2.2 (by decide) (by decide)⟩

/-- C5, the code at the failing input. For the 2x3 array type a list of one sub-array is
not broadcast, and a list of three sub-arrays is not reported as `invalid_argument`:
both end in the failed assertion of the constructor.  The rank-1 constructor, given
lists of the same kind for length 3, broadcasts the single element and reports
`invalid_argument` for the wrong count. -/
theorem list_construct_sub_neither_broadcasts_nor_throws :
    list_construct_sub 2 3 [] [test_row] = Except.error Failure.assertion_failure ∧
    list_construct_sub 2 3 [] [test_row] ≠
      Except.ok (Mathlib.Vector.replicate 2 test_row : Mathlib.Vector (num_array Int [3]) 2) ∧
    list_construct_sub 2 3 [] [test_row, test_row, test_row] =
      Except.error Failure.assertion_failure ∧
    list_construct_sub 2 3 [] [test_row, test_row, test_row] ≠
      Except.error Failure.invalid_argument ∧
    list_construct 3 [(7 : Int)] = Except.ok (value_construct [3] 7) ∧
    list_construct 3 [(1 : Int), 2] = Except.error Failure.invalid_argument := by
  refine ⟨rfl, ?_, rfl, ?_, rfl, rfl⟩
  · intro h
    have h2 : (Except.error Failure.assertion_failure :
        Except Failure (num_array Int [2, 3])) = Except.ok _ := h
    cases h2
  · intro h
    have h2 : (Except.error Failure.assertion_failure :
        Except Failure (num_array Int [2, 3])) = Except.error Failure.invalid_argument := h
    cases h2

/-- The constructor of rank 2 and above, for every first extent `M` and list `L` of
sub-arrays, in a build with assertions enabled: with `|L| = M` construction succeeds and
top-level element `i` is `L[i]`; with any other count, a single sub-array included, the
assertion `init_list.size() == M` fails and no array is produced. -/
theorem list_construct_sub_count_rule (M N : Nat) (Ns : List Nat)
    (L : List (num_array T (N :: Ns))) :
    (∀ h : L.length = M, ∃ A : num_array T (M :: N :: Ns),
      list_construct_sub M N Ns L = Except.ok A ∧
      ∀ i : Fin M, subscript A i = L.get (i.cast h.symm)) ∧
    (L.length ≠ M → list_construct_sub M N Ns L = Except.error Failure.assertion_failure) := by
  constructor
  · intro h
    exact ⟨(⟨L, h⟩ : Mathlib.Vector (num_array T (N :: Ns)) M), dif_pos h, fun _ => rfl⟩
  · intro h
    exact dif_neg h

/-- The 2x3 array type built from two rows and from one. -/
theorem list_construct_sub_count_rule_witness :
    (∃ A : num_array Int [2, 3], list_construct_sub 2 3 [] [test_row, test_row] = Except.ok A ∧
      ∀ i : Fin 2, subscript A i = [test_row, test_row].get (i.cast rfl)) ∧
    list_construct_sub 2 3 [] [test_row] = Except.error Failure.assertion_failure :=
  ⟨(list_construct_sub_count_rule 2 3 [] [test_row, test_row]).1 rfl,
    (list_construct_sub_count_rule 2 3 [] [test_row]).2 (by decide)⟩

/-- C6. For every shape and scalar `x` (of a type whose `==` is equality): every element
of the array `A` value-constructed from `x` is `x` and `A == x` is true; the array `B`
copy-constructed from `A` satisfies `B == A` and `B == x`. -/
theorem value_and_copy_construct [BEq T] [LawfulBEq T] (M : Nat) (Ns : List Nat) (x : T) :
    (∀ idx : Index (M :: Ns), call (M :: Ns) (value_construct (M :: Ns) x) idx = x) ∧
    operator_eq_scalar id id (M :: Ns) (value_construct (M :: Ns) x) x = true ∧
    operator_eq id id (M :: Ns) (copy id (M :: Ns) (value_construct (M :: Ns) x))
      (value_construct (M :: Ns) x) = true ∧
    operator_eq_scalar id id (M :: Ns) (copy id (M :: Ns) (value_construct (M :: Ns) x)) x =
      true := by
  refine ⟨call_value_construct x (M :: Ns), ?_, ?_, ?_⟩
  · rw [operator_eq_scalar_eq_true]
    intro idx
    rw [call_value_construct]
    simp
  · rw [operator_eq_eq_true]
    intro idx
    rw [call_copy, call_value_construct]
    simp
  · rw [operator_eq_scalar_eq_true]
    intro idx
    rw [call_copy, call_value_construct]
    simp

/-- Witness for C6: the 4x10 integer array type and the value 3 of `test_constructors`. -/
theorem value_and_copy_construct_witness :
    (∀ idx : Index [4, 10], call [4, 10] (value_construct [4, 10] (3 : Int)) idx = 3) ∧
    operator_eq_scalar id id [4, 10] (value_construct [4, 10] (3 : Int)) 3 = true ∧
    operator_eq id id [4, 10] (copy id [4, 10] (value_construct [4, 10] (3 : Int)))
      (value_construct [4, 10] 3) = true ∧
    operator_eq_scalar id id [4, 10] (copy id [4, 10] (value_construct [4, 10] (3 : Int))) 3 =
      true :=
  value_and_copy_construct 4 [10] (3 : Int)

end construction

/-! ## Checked access -/

section checked_access
variable {T : Type}

theorem call_raw_in_range : ∀ (shape : List Nat) (x : num_array T shape) (idx : Index shape),
    call_raw shape x (Index.raw shape idx) = Except.ok (call shape x idx)
  | [], _, _ => rfl
  | M :: Ns, x, (i, js) => by
    show (if h : i.val < M then call_raw Ns (subscript x ⟨i.val, h⟩) (Index.raw Ns js)
      else Except.error Failure.out_of_bounds) = _
    rw [dif_pos i.isLt]
    exact call_raw_in_range Ns (subscript x i) js

/-- With every index inside its extent `at` returns the element `operator()` returns. -/
theorem checked_at_in_range (M : Nat) (Ns : List Nat) (x : num_array T (M :: Ns))
    (idx : Index (M :: Ns)) :
    checked_at M Ns x (Index.raw (M :: Ns) idx) = Except.ok (call (M :: Ns) x idx) := by
  obtain ⟨i, js⟩ := idx
  show (if h : i.val < M then call_raw Ns (subscript x ⟨i.val, h⟩) (Index.raw Ns js)
    else Except.error Failure.assertion_failure) = _
  rw [dif_pos i.isLt]
  exact call_raw_in_range Ns (subscript x i) js

/-- A first index outside the first extent fails the assertion of `at`. -/
theorem checked_at_first_index (M : Nat) (Ns : List Nat) (x : num_array T (M :: Ns))
    (idx : RawIndex (M :: Ns)) (h : M ≤ idx.1) :
    checked_at M Ns x idx = Except.error Failure.assertion_failure := by
  unfold checked_at
  rw [dif_neg (by omega)]

/-- A second index outside the second extent, after a first index inside the first, is
not caught by any assertion of `at`. -/
theorem checked_at_second_index (M N : Nat) (Ns : List Nat) (x : num_array T (M :: N :: Ns))
    (i j : Nat) (rest : RawIndex Ns) (hi : i < M) (hj : N ≤ j) :
    checked_at M (N :: Ns) x (i, j, rest) = Except.error Failure.out_of_bounds := by
  show (if h : i < M then call_raw (N :: Ns) (subscript x ⟨i, h⟩) (j, rest)
    else Except.error Failure.assertion_failure) = _
  rw [dif_pos hi]
  show (if h : j < N then call_raw Ns (subscript (subscript x ⟨i, hi⟩) ⟨j, h⟩) rest
    else Except.error Failure.out_of_bounds) = _
  rw [dif_neg (by omega)]

/-- C7, the code at the failing input. On the 2x3 array `{{1,2,3},{4,5,6}}`, `at(0, 3)`
passes the only assertion `0 < 2` and reads `data_[0](3)` outside the row without any
assertion failing; `at(2, 0)` fails the assertion; `at(1, 2)` returns the element
`(1, 2)`. -/
theorem checked_at_checks_first_index_only :
    checked_at 2 [3] test_A (0, 3, ()) = Except.error Failure.out_of_bounds ∧
    checked_at 2 [3] test_A (0, 3, ()) ≠ Except.error Failure.assertion_failure ∧
    checked_at 2 [3] test_A (2, 0, ()) = Except.error Failure.assertion_failure ∧
    checked_at 2 [3] test_A (1, 2, ()) = Except.ok (call [2, 3] test_A (1, 2, ())) := by
  refine ⟨rfl, ?_, rfl, rfl⟩
  intro h
  have h2 : (Except.error Failure.out_of_bounds : Except Failure Int) =
      Except.error Failure.assertion_failure := h
  cases h2

end checked_access

/-! ## Matrix algebra -/

section nested_loops
variable {T : Type} {M : Nat} {Ns : List Nat}

/-- A loop that assigns element `i` a value depending on `i` only. -/
theorem subscript_foldl_assign (g : Fin M → num_array T Ns) (l : List (Fin M)) (hl : l.Nodup)
    (r : num_array T (M :: Ns)) (j : Fin M) :
    subscript (l.foldl (fun r i => assign r i (g i)) r) j =
      if j ∈ l then g j else subscript r j := by
  refine subscript_foldl_rowwise (fun i r => assign r i (g i)) (fun i _ => g i) ?_ l hl r j
  intro i r j
  rw [subscript_assign]

/-- A loop whose every step rewrites the one element `i`. -/
theorem subscript_foldl_within {ι : Type} (i : Fin M) (g : ι → num_array T Ns → num_array T Ns)
    (l : List ι) (r : num_array T (M :: Ns)) (j : Fin M) :
    subscript (l.foldl (fun r k => assign r i (g k (subscript r i))) r) j =
      if j = i then l.foldl (fun row k => g k row) (subscript r j) else subscript r j := by
  induction l generalizing r with
  | nil => simp
  | cons a l ih =>
    rw [List.foldl_cons, ih, subscript_assign]
    by_cases h : j = i
    · subst h
      simp [subscript_assign_same]
    · simp [h]

end nested_loops

section matrix
variable {T T1 T2 R : Type}

theorem call_transpose (M N : Nat) (uninitialized : num_array T [N, M]) (x : num_array T [M, N])
    (i : Fin M) (j : Fin N) :
    call [N, M] (transpose M N uninitialized x) (j, i, ()) = call [M, N] x (i, j, ()) := by
  have hinner : ∀ (i : Fin M) (r : num_array T [N, M]) (j : Fin N),
      subscript ((List.finRange N).foldl
        (fun result j => call_assign [N, M] result (j, i, ()) (call [M, N] x (i, j, ())))
        r) j = assign (subscript r j) i (call [M, N] x (i, j, ())) := by
    intro i r j
    refine (subscript_foldl_rowwise
      (fun j result => call_assign [N, M] result (j, i, ()) (call [M, N] x (i, j, ())))
      (fun j row => assign row i (call [M, N] x (i, j, ()))) ?_ _ (List.nodup_finRange N) r
      j).trans ?_
    · intro j r j2
      show subscript (assign r j (assign (subscript r j) i (call [M, N] x (i, j, ())))) j2 = _
      rw [subscript_assign]
      by_cases h : j2 = j
      · subst h; simp
      · simp [h]
    · simp [List.mem_finRange]
  have houter := subscript_foldl_columnwise
    (fun i r => (List.finRange N).foldl
      (fun result j => call_assign [N, M] result (j, i, ()) (call [M, N] x (i, j, ()))) r)
    (fun i j row => assign row i (call [M, N] x (i, j, ()))) hinner (List.finRange M)
    uninitialized j
  show subscript (subscript (transpose M N uninitialized x) j) i = _
  unfold transpose
  rw [houter]
  have hrow := @subscript_foldl_assign T M [] (fun i => call [M, N] x (i, j, ()))
    (List.finRange M) (List.nodup_finRange M) (subscript uninitialized j) i
  rw [hrow]
  simp [List.mem_finRange]

theorem call_matrix_product [Zero R] [Add R] [Mul R] (c1 : T1 → R) (c2 : T2 → R) (M N P : Nat)
    (uninitialized : num_array R [M, P]) (lhs : num_array T1 [M, N]) (rhs : num_array T2 [N, P])
    (i : Fin M) (j : Fin P) :
    call [M, P] (matrix_product c1 c2 M N P uninitialized lhs rhs) (i, j, ()) =
      (List.finRange N).foldl
        (fun sum k => sum + c1 (call [M, N] lhs (i, k, ())) * c2 (call [N, P] rhs (k, j, ())))
        0 := by
  let s : Fin M → Fin P → R := fun i j => (List.finRange N).foldl
    (fun sum k => sum + c1 (call [M, N] lhs (i, k, ())) * c2 (call [N, P] rhs (k, j, ()))) 0
  have hmiddle : ∀ (i : Fin M) (r : num_array R [M, P]) (i2 : Fin M),
      subscript ((List.finRange P).foldl
        (fun result j => call_assign [M, P] result (i, j, ()) (s i j)) r) i2 =
      if i2 = i then (List.finRange P).foldl (fun row j => assign row j (s i j)) (subscript r i2)
      else subscript r i2 := by
    intro i r i2
    exact subscript_foldl_within i (fun j row => assign row j (s i j)) (List.finRange P) r i2
  have houter := subscript_foldl_rowwise
    (fun i r => (List.finRange P).foldl
      (fun result j => call_assign [M, P] result (i, j, ()) (s i j)) r)
    (fun i row => (List.finRange P).foldl (fun row j => assign row j (s i j)) row)
    hmiddle (List.finRange M) (List.nodup_finRange M) uninitialized i
  show subscript (subscript (matrix_product c1 c2 M N P uninitialized lhs rhs) i) j = s i j
  have hunfold : matrix_product c1 c2 M N P uninitialized lhs rhs =
      (List.finRange M).foldl (fun r i => (List.finRange P).foldl
        (fun result j => call_assign [M, P] result (i, j, ()) (s i j)) r) uninitialized := rfl
  rw [hunfold, houter]
  simp only [List.mem_finRange, if_true]
  have hrow := @subscript_foldl_assign R P [] (fun j => s i j)
    (List.finRange P) (List.nodup_finRange P) (subscript uninitialized i) j
  rw [hrow]
  simp [List.mem_finRange]

/-- Without any algebraic law but commutativity of the element product, entry `(i, j)`
of `matrix_product(lhs, rhs)` is `dot_product(lhs[i], transpose(rhs)[j])`, the two
accumulating the same terms in the same order. -/
theorem call_matrix_product_eq_dot_product [Zero R] [Add R] [Mul R] (c1 : T1 → R) (c2 : T2 → R)
    (hmul : ∀ a b : R, a * b = b * a) (M N P : Nat) (uninitialized : num_array R [M, P])
    (uninitialized_t : num_array T2 [P, N]) (lhs : num_array T1 [M, N])
    (rhs : num_array T2 [N, P]) (i : Fin M) (j : Fin P) :
    call [M, P] (matrix_product c1 c2 M N P uninitialized lhs rhs) (i, j, ()) =
      dot_product c1 c2 N (subscript lhs i) (subscript (transpose N P uninitialized_t rhs) j) := by
  rw [call_matrix_product]
  unfold dot_product
  congr 1
  funext sum k
  have ht : subscript (subscript (transpose N P uninitialized_t rhs) j) k =
      call [N, P] rhs (k, j, ()) := call_transpose N P uninitialized_t rhs k j
  rw [ht, hmul]
  rfl

theorem foldl_add_eq_sum [AddCommMonoid R] {N : Nat} (f : Fin N → R) :
    (List.finRange N).foldl (fun sum k => sum + f k) 0 = ∑ k : Fin N, f k := by
  have h : ∀ (l : List (Fin N)) (a : R),
      l.foldl (fun sum k => sum + f k) a = a + (l.map f).sum := by
    intro l
    induction l with
    | nil => intro a; simp
    | cons b l ih => intro a; rw [List.foldl_cons, ih, List.map_cons, List.sum_cons, add_assoc]
  rw [h, zero_add, Fin.sum_univ_def]

/-- C8. For an `M`x`N` array `A`, an `N`x`P` array `B` and `i < M`, `j < P`, over a
commutative semiring: `matrix_product(A, B)(i, j)` is the sum over `k < N` of
`A(i,k) * B(k,j)` accumulated from 0 in the order of `k`, which is
`dot_product(A[i], transpose(B)[j])`; the operator `A * B` on two rank-2 arrays returns
the same array; and `A * transpose(A) = {{14,32},{32,77}}` for `A = {{1,2,3},{4,5,6}}`. -/
theorem matrix_product_entries [CommSemiring R] (c1 : T1 → R) (c2 : T2 → R) (M N P : Nat)
    (uninitialized : num_array R [M, P]) (uninitialized_t : num_array T2 [P, N])
    (A : num_array T1 [M, N]) (B : num_array T2 [N, P]) (i : Fin M) (j : Fin P) :
    call [M, P] (matrix_product c1 c2 M N P uninitialized A B) (i, j, ()) =
      (List.finRange N).foldl
        (fun sum k => sum + c1 (call [M, N] A (i, k, ())) * c2 (call [N, P] B (k, j, ()))) 0 ∧
    call [M, P] (matrix_product c1 c2 M N P uninitialized A B) (i, j, ()) =
      ∑ k : Fin N, c1 (call [M, N] A (i, k, ())) * c2 (call [N, P] B (k, j, ())) ∧
    call [M, P] (matrix_product c1 c2 M N P uninitialized A B) (i, j, ()) =
      dot_product c1 c2 N (subscript A i) (subscript (transpose N P uninitialized_t B) j) ∧
    operator_times_matrix c1 c2 M N P uninitialized A B =
      matrix_product c1 c2 M N P uninitialized A B ∧
    ∀ (v : num_array Int [2, 2]) (w : num_array Int [3, 2]),
      operator_times_matrix id id 2 3 2 v test_A (transpose 2 3 w test_A) = test_A_product := by
  refine ⟨call_matrix_product c1 c2 M N P uninitialized A B i j, ?_, ?_, rfl, ?_⟩
  · rw [call_matrix_product]
    exact foldl_add_eq_sum
      (fun k => c1 (call [M, N] A (i, k, ())) * c2 (call [N, P] B (k, j, ())))
  · exact call_matrix_product_eq_dot_product c1 c2 mul_comm M N P uninitialized
      uninitialized_t A B i j
  · intro v w
    apply ext_call
    intro idx
    obtain ⟨i, j, ⟨⟩⟩ := idx
    unfold operator_times_matrix
    rw [call_matrix_product]
    simp only [call_transpose]
    fin_cases i <;> fin_cases j <;> rfl

/-- C9. For an `M`x`N` array `X` and `i < M`, `j < N`: `transpose(X)` is the `N`x`M`
array with `transpose(X)(j, i) = X(i, j)`, a function of the value of `X`, which is not
modified; and `transpose({{1,2,3},{4,5,6}}) = {{1,4},{2,5},{3,6}}`. -/
theorem transpose_entries (M N : Nat) (uninitialized : num_array T [N, M])
    (X : num_array T [M, N]) (i : Fin M) (j : Fin N) :
    call [N, M] (transpose M N uninitialized X) (j, i, ()) = call [M, N] X (i, j, ()) ∧
    ∀ w : num_array Int [3, 2], transpose 2 3 w test_A = test_A_transposed := by
  refine ⟨call_transpose M N uninitialized X i j, ?_⟩
  intro w
  apply ext_call
  intro idx
  obtain ⟨j, i, ⟨⟩⟩ := idx
  rw [call_transpose]
  fin_cases j <;> fin_cases i <;> rfl

/-- C10. For every `M`x`N` array `A`, square or not (elements of a type whose `==` is
equality): `transpose(transpose(A))` is `A`, and `transpose(transpose(A)) == A` is
true. -/
theorem transpose_transpose [BEq T] [LawfulBEq T] (M N : Nat)
    (uninitialized : num_array T [N, M]) (uninitialized_t : num_array T [M, N])
    (A : num_array T [M, N]) :
    transpose N M uninitialized_t (transpose M N uninitialized A) = A ∧
    operator_eq id id [M, N] (transpose N M uninitialized_t (transpose M N uninitialized A)) A =
      true := by
  have h : transpose N M uninitialized_t (transpose M N uninitialized A) = A := by
    apply ext_call
    intro idx
    obtain ⟨i, j, ⟨⟩⟩ := idx
    rw [call_transpose, call_transpose]
  refine ⟨h, ?_⟩
  rw [h, operator_eq_eq_true]
  intro idx
  simp

/-- Witness for C10: the 2x3 array `{{1,2,3},{4,5,6}}`, a rectangular array. -/
theorem transpose_transpose_witness :
    transpose 3 2 (value_construct [2, 3] 0)
      (transpose 2 3 (value_construct [3, 2] 0) test_A) = test_A ∧
    operator_eq id id [2, 3]
      (transpose 3 2 (value_construct [2, 3] 0)
        (transpose 2 3 (value_construct [3, 2] 0) test_A)) test_A = true :=
  transpose_transpose 2 3 (value_construct [3, 2] 0) (value_construct [2, 3] 0) test_A

end matrix

/-! ## Vector algebra -/

section vector
variable {T T1 T2 R : Type}

theorem dot_product_eq_sum [CommSemiring R] (c1 : T1 → R) (c2 : T2 → R) (N : Nat)
    (v : num_array T1 [N]) (w : num_array T2 [N]) :
    dot_product c1 c2 N v w = ∑ i : Fin N, c1 (subscript v i) * c2 (subscript w i) := by
  unfold dot_product
  rw [foldl_add_eq_sum (fun i => c2 (subscript w i) * c1 (subscript v i))]
  exact Finset.sum_congr rfl (fun i _ => mul_comm _ _)

theorem subscript_copy_id (N : Nat) (x : num_array T [N]) (i : Fin N) :
    subscript (copy id [N] x) i = subscript x i :=
  call_copy id [N] x (i, ())

theorem call_operator_neg [Neg T] (N : Nat) (x : num_array T [N]) (i : Fin N) :
    call [N] (operator_neg N x) (i, ()) = -call [N] x (i, ()) := by
  have h : subscript (operator_neg N x) i =
      (fun (x : T) => -x) (subscript (copy id [N] x) i) := subscript_apply _ _ i
  rw [subscript_copy_id] at h
  exact h

/-- C11. For rank-1 arrays `v`, `w` of one length `N` over a commutative semiring:
`dot_product(v, w)` is the sum over `i < N` of `v[i] * w[i]` in the common type, started
from 0, so it is 0 for `N = 0`; it equals `dot_product(w, v)`; and
`dot_product({1,0,0}, {0,1,0}) = 0`. -/
theorem dot_product_is_sum [CommSemiring R] (c1 : T1 → R) (c2 : T2 → R) (N : Nat)
    (v : num_array T1 [N]) (w : num_array T2 [N]) :
    dot_product c1 c2 N v w = ∑ i : Fin N, c1 (subscript v i) * c2 (subscript w i) ∧
    dot_product c1 c2 N v w = dot_product c2 c1 N w v ∧
    (∀ (v0 : num_array T1 [0]) (w0 : num_array T2 [0]), dot_product c1 c2 0 v0 w0 = 0) ∧
    dot_product (id : Int → Int) (id : Int → Int) 3 test_v1 test_v2 = 0 := by
  refine ⟨dot_product_eq_sum c1 c2 N v w, ?_, ?_, rfl⟩
  · rw [dot_product_eq_sum, dot_product_eq_sum]
    exact Finset.sum_congr rfl (fun i _ => mul_comm _ _)
  · intro v0 w0
    rfl

/-- C12. For length-3 vectors `v`, `w` over a commutative ring: `cross_product(v, w)`
is the vector `(v[1]*w[2] - v[2]*w[1], v[2]*w[0] - v[0]*w[2], v[0]*w[1] - v[1]*w[0])`,
its construction from the three-element list succeeding, and `cross_product(w, v)` is
`-cross_product(v, w)`. -/
theorem cross_product_formula [CommRing R] (c1 : T1 → R) (c2 : T2 → R) (v : num_array T1 [3])
    (w : num_array T2 [3]) :
    cross_product c1 c2 v w = Except.ok (⟨
      [c1 (subscript v 1) * c2 (subscript w 2) - c1 (subscript v 2) * c2 (subscript w 1),
       c1 (subscript v 2) * c2 (subscript w 0) - c1 (subscript v 0) * c2 (subscript w 2),
       c1 (subscript v 0) * c2 (subscript w 1) - c1 (subscript v 1) * c2 (subscript w 0)],
      rfl⟩ : Mathlib.Vector R 3) ∧
    cross_product c2 c1 w v = Except.ok (operator_neg 3 (⟨
      [c1 (subscript v 1) * c2 (subscript w 2) - c1 (subscript v 2) * c2 (subscript w 1),
       c1 (subscript v 2) * c2 (subscript w 0) - c1 (subscript v 0) * c2 (subscript w 2),
       c1 (subscript v 0) * c2 (subscript w 1) - c1 (subscript v 1) * c2 (subscript w 0)],
      rfl⟩ : Mathlib.Vector R 3)) := by
  refine ⟨rfl, ?_⟩
  have h : cross_product c2 c1 w v = Except.ok (⟨
      [c2 (subscript w 1) * c1 (subscript v 2) - c2 (subscript w 2) * c1 (subscript v 1),
       c2 (subscript w 2) * c1 (subscript v 0) - c2 (subscript w 0) * c1 (subscript v 2),
       c2 (subscript w 0) * c1 (subscript v 1) - c2 (subscript w 1) * c1 (subscript v 0)],
      rfl⟩ : Mathlib.Vector R 3) := rfl
  rw [h]
  congr 1
  apply @ext_subscript R 3 []
  intro i
  have hneg := call_operator_neg 3 (⟨
      [c1 (subscript v 1) * c2 (subscript w 2) - c1 (subscript v 2) * c2 (subscript w 1),
       c1 (subscript v 2) * c2 (subscript w 0) - c1 (subscript v 0) * c2 (subscript w 2),
       c1 (subscript v 0) * c2 (subscript w 1) - c1 (subscript v 1) * c2 (subscript w 0)],
      rfl⟩ : Mathlib.Vector R 3) i
  refine Eq.trans ?_ hneg.symm
  fin_cases i
  · show c2 (subscript w 1) * c1 (subscript v 2) - c2 (subscript w 2) * c1 (subscript v 1) =
      -(c1 (subscript v 1) * c2 (subscript w 2) - c1 (subscript v 2) * c2 (subscript w 1))
    ring
  · show c2 (subscript w 2) * c1 (subscript v 0) - c2 (subscript w 0) * c1 (subscript v 2) =
      -(c1 (subscript v 2) * c2 (subscript w 0) - c1 (subscript v 0) * c2 (subscript w 2))
    ring
  · show c2 (subscript w 0) * c1 (subscript v 1) - c2 (subscript w 1) * c1 (subscript v 0) =
      -(c1 (subscript v 0) * c2 (subscript w 1) - c1 (subscript v 1) * c2 (subscript w 0))
    ring

/-- Entry `(m, n)` of `outer_product(v, w)`: the product `w[n] * static_cast<T2>(v[m])`
taken in `T2`, then converted to `R`. -/
theorem call_outer_product [Mul T2] (cast : T1 → T2) (c2 : T2 → R) (N1 N2 : Nat)
    (uninitialized : num_array R [N1, N2]) (v : num_array T1 [N1]) (w : num_array T2 [N2])
    (m : Fin N1) (n : Fin N2) :
    call [N1, N2] (outer_product cast c2 N1 N2 uninitialized v w) (m, n, ()) =
      c2 (call [N2] w (n, ()) * cast (call [N1] v (m, ()))) := by
  have hrow := subscript_foldl_assign
    (fun m => copy c2 [N2] (operator_times id id [N2] w (cast (subscript v m))))
    (List.finRange N1) (List.nodup_finRange N1) uninitialized m
  rw [if_pos (List.mem_finRange m)] at hrow
  show call [N2] (subscript (outer_product cast c2 N1 N2 uninitialized v w) m) (n, ()) = _
  unfold outer_product
  rw [hrow, call_copy]
  unfold operator_times operator_times_eq
  rw [call_compound_scalar, call_copy]
  rfl

/-- C13, the code at the failing input and on the tested inputs. With a fractional
`T1` and an integral `T2`, `v = {0.5}` and `w = {2}`: the entry of `outer_product(v, w)`
is 0, where `v[0] * w[0]` in the common type is 1, because `v[0]` is cast to `T2`
before the product; the swapped call `outer_product(w, v)` gives 1.  With one element
type the tested values are obtained:
`outer_product({3,4,5}, {1,2}) = {{3,6},{4,8},{5,10}}` and
`outer_product({1,2}, {3,4,5}) = {{3,4,5},{6,8,10}}`. -/
theorem outer_product_multiplies_in_T2 :
    (∀ u : num_array ℚ [1, 1],
      call [1, 1] (outer_product truncate (fun z : Int => (z : ℚ)) 1 1 u test_half test_two)
        (0, 0, ()) = 0) ∧
    call [1] test_half (0, ()) * ((call [1] test_two (0, ()) : Int) : ℚ) = 1 ∧
    (∀ u : num_array ℚ [1, 1],
      call [1, 1] (outer_product (fun z : Int => (z : ℚ)) id 1 1 u test_two test_half)
        (0, 0, ()) = 1) ∧
    (∀ u : num_array Int [3, 2], outer_product id id 3 2 u test_v test_w = test_vw) ∧
    (∀ u : num_array Int [2, 3], outer_product id id 2 3 u test_w test_v = test_wv) := by
  refine ⟨?_, ?_, ?_, ?_, ?_⟩
  · intro u
    rw [call_outer_product]
    have h : call [1] test_two (0, ()) * truncate (call [1] test_half (0, ())) = 0 := by
      decide
    rw [h]
    simp
  · show (⟨1, 2, by decide, by decide⟩ : ℚ) * (((2 : Int) : Int) : ℚ) = 1
    rw [Rat.mk'_eq_divInt, Rat.divInt_eq_div]
    norm_num
  · intro u
    rw [call_outer_product]
    show (⟨1, 2, by decide, by decide⟩ : ℚ) * (((2 : Int) : Int) : ℚ) = 1
    rw [Rat.mk'_eq_divInt, Rat.divInt_eq_div]
    norm_num
  · intro u
    apply ext_call
    intro idx
    obtain ⟨m, n, ⟨⟩⟩ := idx
    rw [call_outer_product]
    fin_cases m <;> fin_cases n <;> rfl
  · intro u
    apply ext_call
    intro idx
    obtain ⟨m, n, ⟨⟩⟩ := idx
    rw [call_outer_product]
    fin_cases m <;> fin_cases n <;> rfl

end vector

/-! ## Determinant and products with a vector -/

section products
variable {T T1 T2 R : Type}

theorem test_A_times_transpose (v : num_array Int [2, 2]) (w : num_array Int [3, 2]) :
    operator_times_matrix id id 2 3 2 v test_A (transpose 2 3 w test_A) = test_A_product := by
  apply ext_call
  intro idx
  obtain ⟨i, j, ⟨⟩⟩ := idx
  unfold operator_times_matrix
  rw [call_matrix_product]
  simp only [call_transpose]
  fin_cases i <;> fin_cases j <;> rfl

/-- C14. For every 2x2 array `X`: `det(X) = X(0,0) * X(1,1) - X(0,1) * X(1,0)`; and for
`A = {{1,2,3},{4,5,6}}`, `det(A * transpose(A)) = 14 * 77 - 32 * 32 = 54`. -/
theorem det_formula [Sub T] [Mul T] (X : num_array T [2, 2]) :
    det X = call [2, 2] X (0, 0, ()) * call [2, 2] X (1, 1, ()) -
      call [2, 2] X (0, 1, ()) * call [2, 2] X (1, 0, ()) ∧
    ∀ (v : num_array Int [2, 2]) (w : num_array Int [3, 2]),
      det (operator_times_matrix id id 2 3 2 v test_A (transpose 2 3 w test_A)) =
        14 * 77 - 32 * 32 ∧
      det (operator_times_matrix id id 2 3 2 v test_A (transpose 2 3 w test_A)) = 54 := by
  refine ⟨rfl, ?_⟩
  intro v w
  rw [test_A_times_transpose]
  exact ⟨rfl, rfl⟩

theorem subscript_matrix_vector_product [Zero R] [Add R] [Mul R] (c1 : T1 → R) (c2 : T2 → R)
    (M N : Nat) (uninitialized : num_array R [M]) (lhs : num_array T1 [M, N])
    (rhs : num_array T2 [N]) (i : Fin M) :
    call [M] (matrix_vector_product c1 c2 M N uninitialized lhs rhs) (i, ()) =
      dot_product c1 c2 N (subscript lhs i) rhs := by
  have hrow := @subscript_foldl_assign R M []
    (fun i => (dot_product c1 c2 N (subscript lhs i) rhs : R))
    (List.finRange M) (List.nodup_finRange M) uninitialized i
  rw [if_pos (List.mem_finRange i)] at hrow
  exact hrow

theorem subscript_vector_matrix_product [Zero R] [Add R] [Mul R] (c1 : T1 → R) (c2 : T2 → R)
    (M N : Nat) (uninitialized : num_array R [N]) (lhs : num_array T1 [M])
    (rhs : num_array T2 [M, N]) (j : Fin N) :
    call [N] (vector_matrix_product c1 c2 M N uninitialized lhs rhs) (j, ()) =
      (List.finRange M).foldl
        (fun sum k => sum + c1 (subscript lhs k) * c2 (call [M, N] rhs (k, j, ()))) 0 := by
  have hrow := @subscript_foldl_assign R N []
    (fun j => (List.finRange M).foldl
      (fun (sum : R) k => sum + c1 (subscript lhs k) * c2 (call [M, N] rhs (k, j, ()))) (0 : R))
    (List.finRange N) (List.nodup_finRange N) uninitialized j
  rw [if_pos (List.mem_finRange j)] at hrow
  exact hrow

/-- C15. For an `M`x`N` array `A`, a length-`N` vector `v` and `i < M`, over a
commutative semiring: entry `i` of `matrix_vector_product(A, v)` is
`dot_product(A[i], v)`, the sum over `k < N` of `A(i,k) * v[k]`; the operator `A * v`
returns the same vector. -/
theorem matrix_vector_product_entries [CommSemiring R] (c1 : T1 → R) (c2 : T2 → R) (M N : Nat)
    (uninitialized : num_array R [M]) (A : num_array T1 [M, N]) (v : num_array T2 [N])
    (i : Fin M) :
    call [M] (matrix_vector_product c1 c2 M N uninitialized A v) (i, ()) =
      dot_product c1 c2 N (subscript A i) v ∧
    call [M] (matrix_vector_product c1 c2 M N uninitialized A v) (i, ()) =
      ∑ k : Fin N, c1 (call [M, N] A (i, k, ())) * c2 (subscript v k) ∧
    operator_times_matrix_vector c1 c2 M N uninitialized A v =
      matrix_vector_product c1 c2 M N uninitialized A v := by
  refine ⟨subscript_matrix_vector_product c1 c2 M N uninitialized A v i, ?_, rfl⟩
  rw [subscript_matrix_vector_product, dot_product_eq_sum]
  rfl

/-- C16. For a length-`M` vector `v`, an `M`x`N` array `B` and `j < N`, over a semiring:
entry `j` of `vector_matrix_product(v, B)` is the sum over `k < M` of `v[k] * B(k,j)`,
accumulated from 0 in the order of `k`; the operator `v * B` returns the same vector. -/
theorem vector_matrix_product_entries [Semiring R] (c1 : T1 → R) (c2 : T2 → R) (M N : Nat)
    (uninitialized : num_array R [N]) (v : num_array T1 [M]) (B : num_array T2 [M, N])
    (j : Fin N) :
    call [N] (vector_matrix_product c1 c2 M N uninitialized v B) (j, ()) =
      (List.finRange M).foldl
        (fun sum k => sum + c1 (subscript v k) * c2 (call [M, N] B (k, j, ()))) 0 ∧
    call [N] (vector_matrix_product c1 c2 M N uninitialized v B) (j, ()) =
      ∑ k : Fin M, c1 (subscript v k) * c2 (call [M, N] B (k, j, ())) ∧
    operator_times_vector_matrix c1 c2 M N uninitialized v B =
      vector_matrix_product c1 c2 M N uninitialized v B := by
  refine ⟨subscript_vector_matrix_product c1 c2 M N uninitialized v B j, ?_, rfl⟩
  rw [subscript_vector_matrix_product]
  exact foldl_add_eq_sum (fun k => c1 (subscript v k) * c2 (call [M, N] B (k, j, ())))

end products

/-! ## Negation, absolute value and the arithmetic laws of `test_operators` -/

section laws
variable {T R : Type}

theorem call_abs [Lattice T] [AddGroup T] (N : Nat) (uninitialized v : num_array T [N])
    (i : Fin N) :
    call [N] (num_array.abs N uninitialized v) (i, ()) = |call [N] v (i, ())| :=
  subscript_apply₂ v (fun (_ y : T) => (std_abs y : T)) uninitialized i

theorem call_operator_plus_array [Add R] (shape : List Nat) (A B : num_array R shape)
    (idx : Index shape) :
    call shape (operator_plus_array id id shape A B) idx = call shape A idx + call shape B idx := by
  unfold operator_plus_array operator_plus_eq_array
  rw [call_compound_array, call_copy, call_copy]
  rfl

theorem call_operator_times [Mul R] (shape : List Nat) (A : num_array R shape) (s : R)
    (idx : Index shape) :
    call shape (operator_times id id shape A s) idx = call shape A idx * s := by
  unfold operator_times operator_times_eq
  rw [call_compound_scalar, call_copy]
  rfl

theorem call_operator_div [Div R] (shape : List Nat) (A : num_array R shape) (s : R)
    (idx : Index shape) :
    call shape (operator_div id id shape A s) idx = call shape A idx / s := by
  unfold operator_div operator_div_eq
  rw [call_compound_scalar, call_copy]
  rfl

/-- Halving the doubled value of a `w`-bit unsigned element gives the element back
exactly when doubling does not wrap. -/
theorem unsigned_half_of_double (w : Nat) (hw : 2 ≤ w) (a : Fin (2 ^ w)) :
    ((a + a) / 2 = a) ↔ 2 * a.val < 2 ^ w := by
  obtain ⟨k, hk⟩ : ∃ k, 2 ^ w = 4 * k := ⟨2 ^ (w - 2), by
    rw [show (4 : Nat) = 2 ^ 2 from rfl, ← pow_add]; congr 1; omega⟩
  have hk0 : 0 < k := by
    have := Nat.two_pow_pos w; omega
  have h2 : (2 : Fin (2 ^ w)).val = 2 := by
    rw [Fin.coe_ofNat_eq_mod]
    exact Nat.mod_eq_of_lt (by omega)
  have hdiv : ((a + a) / 2).val = (a + a).val / (2 : Fin (2 ^ w)).val := rfl
  rw [Fin.ext_iff, hdiv, Fin.val_add, h2]
  have ha := a.isLt
  constructor
  · intro h; omega
  · intro h
    rw [Nat.mod_eq_of_lt (by omega)]
    omega

/-- C17, the code where it is well-typed. For a rank-1 array `A` over an additive
group: `(-A)[i] = -A[i]` for every `i`, and `-A + A == 0` is true.  The operator has no
instance at rank 2 and above. -/
theorem operator_neg_elementwise [AddGroup T] [DecidableEq T] (N : Nat) (A : num_array T [N]) :
    (∀ i : Fin N, call [N] (operator_neg N A) (i, ()) = -call [N] A (i, ())) ∧
    operator_eq_scalar id id [N] (operator_plus_array id id [N] (operator_neg N A) A) (0 : T) =
      true := by
  refine ⟨call_operator_neg N A, ?_⟩
  rw [operator_eq_scalar_eq_true]
  intro idx
  obtain ⟨i, ⟨⟩⟩ := idx
  rw [call_operator_plus_array, call_operator_neg]
  simp

/-- C18, the code where it is well-typed. For a rank-1 array `A` over a linearly ordered
additive group (exact values): `abs(A)[i] = |A[i]|` for every `i`, every element of
`abs(A)` is non-negative, and `abs(abs(A))` is `abs(A)`, so `abs(abs(A)) == abs(A)` is
true.  The function has no instance at rank 2 and above. -/
theorem abs_elementwise [LinearOrderedAddCommGroup T] (N : Nat)
    (uninitialized uninitialized_2 : num_array T [N]) (A : num_array T [N]) :
    (∀ i : Fin N, call [N] (num_array.abs N uninitialized A) (i, ()) = |call [N] A (i, ())|) ∧
    (∀ i : Fin N, 0 ≤ call [N] (num_array.abs N uninitialized A) (i, ())) ∧
    num_array.abs N uninitialized_2 (num_array.abs N uninitialized A) =
      num_array.abs N uninitialized A ∧
    operator_eq id id [N] (num_array.abs N uninitialized_2 (num_array.abs N uninitialized A))
      (num_array.abs N uninitialized A) = true := by
  have h : num_array.abs N uninitialized_2 (num_array.abs N uninitialized A) =
      num_array.abs N uninitialized A := by
    apply ext_call
    intro idx
    obtain ⟨i, ⟨⟩⟩ := idx
    rw [call_abs, call_abs, abs_abs]
  refine ⟨call_abs N uninitialized A, ?_, h, ?_⟩
  · intro i
    rw [call_abs]
    exact abs_nonneg _
  · rw [h, operator_eq_eq_true]
    intro idx
    simp

/-- Counterexample for C20: for the 32-bit unsigned array `{2147483648}`, `A + A` wraps
to `{0}` and `(A + A) / 2 == A` is false. -/
theorem half_of_double_counterexample :
    operator_eq id id [1]
      (operator_div id id [1] (operator_plus_array id id [1] test_unsigned test_unsigned) 2)
      test_unsigned = false := by
  decide

/-- C20 as amended. For an array `A` of any shape: over the exact integers with
truncating division `(A + A) / 2 == A` is true; over `w`-bit unsigned elements
(`w >= 2`) it is true exactly when `2 * a < 2 ^ w` for every element `a` of `A`, that
is when no element of `A + A` wraps. -/
theorem half_of_double (M : Nat) (Ns : List Nat) :
    (∀ A : num_array Int (M :: Ns),
      operator_eq id id (M :: Ns)
        (@operator_div Int Int Int truncating_division id id (M :: Ns)
          (operator_plus_array id id (M :: Ns) A A) 2) A = true) ∧
    (∀ (w : Nat) (A : num_array (Fin (2 ^ w)) (M :: Ns)), 2 ≤ w →
      (operator_eq id id (M :: Ns)
        (operator_div id id (M :: Ns) (operator_plus_array id id (M :: Ns) A A) 2) A = true ↔
      ∀ idx : Index (M :: Ns), 2 * (call (M :: Ns) A idx).val < 2 ^ w)) := by
  constructor
  · intro A
    rw [operator_eq_eq_true]
    intro idx
    rw [@call_operator_div Int truncating_division, call_operator_plus_array]
    have h : Int.tdiv (call (M :: Ns) A idx + call (M :: Ns) A idx) 2 = call (M :: Ns) A idx := by
      rw [← mul_two]
      exact Int.mul_tdiv_cancel _ (by decide)
    simpa using h
  · intro w A hw
    rw [operator_eq_eq_true]
    constructor
    · intro h idx
      have hidx := h idx
      rw [call_operator_div, call_operator_plus_array] at hidx
      exact (unsigned_half_of_double w hw _).mp (by simpa using hidx)
    · intro h idx
      rw [call_operator_div, call_operator_plus_array]
      simpa using (unsigned_half_of_double w hw _).mpr (h idx)

/-- Witness for the amended C20: the 32-bit unsigned array `{0,1,2,3}`. -/
theorem half_of_double_witness :
    2 ≤ 32 ∧
    (∀ idx : Index [4], 2 * (call [4] test_unsigned_iota idx).val < 2 ^ 32) ∧
    operator_eq id id [4]
      (operator_div id id [4] (operator_plus_array id id [4] test_unsigned_iota
        test_unsigned_iota) 2) test_unsigned_iota = true := by
  have hsmall : ∀ idx : Index [4], 2 * (call [4] test_unsigned_iota idx).val < 2 ^ 32 := by
    intro idx
    obtain ⟨i, ⟨⟩⟩ := idx
    fin_cases i <;> decide
  exact ⟨by decide, hsmall,
    ((half_of_double 4 []).2 32 test_unsigned_iota (by decide)).mpr hsmall⟩

end laws

/-! ## Cancellation laws of `test_operators` -/

section cancellation
variable {T U R : Type}

theorem call_operator_minus_array [Sub R] (shape : List Nat) (A B : num_array R shape)
    (idx : Index shape) :
    call shape (operator_minus_array id id shape A B) idx =
      call shape A idx - call shape B idx := by
  unfold operator_minus_array operator_minus_eq_array
  rw [call_compound_array, call_copy, call_copy]
  rfl

theorem call_operator_plus [Add R] (cU : U → R) (shape : List Nat) (A : num_array R shape)
    (s : U) (idx : Index shape) :
    call shape (operator_plus id cU shape A s) idx = call shape A idx + cU s := by
  unfold operator_plus operator_plus_eq
  rw [call_compound_scalar, call_copy]
  rfl

theorem call_operator_minus [Sub R] (cU : U → R) (shape : List Nat) (A : num_array R shape)
    (s : U) (idx : Index shape) :
    call shape (operator_minus id cU shape A s) idx = call shape A idx - cU s := by
  unfold operator_minus operator_minus_eq
  rw [call_compound_scalar, call_copy]
  rfl

theorem int_to_unsigned_zero (w : Nat) : int_to_unsigned w 0 = 0 := by
  apply Fin.ext
  simp [int_to_unsigned]

theorem int_to_unsigned_neg_one_val (w : Nat) : (int_to_unsigned w (-1)).val = 2 ^ w - 1 := by
  have hpos := Nat.two_pow_pos w
  show ((-1 : Int) % ((2 ^ w : Nat) : Int)).toNat = 2 ^ w - 1
  generalize 2 ^ w = n at hpos
  have h : (-1 : Int) % (n : Int) = (n : Int) - 1 := by
    rw [Int.neg_emod]
    exact Int.emod_eq_of_lt (by omega) (by omega)
  rw [h]
  omega

theorem int_to_unsigned_one_val (w : Nat) : (int_to_unsigned w 1).val = 1 % 2 ^ w := by
  have hpos := Nat.two_pow_pos w
  show ((1 : Int) % ((2 ^ w : Nat) : Int)).toNat = 1 % 2 ^ w
  generalize 2 ^ w = n at hpos
  have h : (1 : Int) % (n : Int) = ((1 % n : Nat) : Int) := by
    simp
  rw [h]
  exact Int.toNat_natCast _

/-- In `w`-bit unsigned arithmetic `0 - 1` is the conversion of `-1`, both being
`2 ^ w - 1`. -/
theorem unsigned_zero_sub_one (w : Nat) :
    (0 : Fin (2 ^ w)) - int_to_unsigned w 1 = int_to_unsigned w (-1) := by
  apply Fin.ext
  rw [Fin.coe_sub, int_to_unsigned_neg_one_val, int_to_unsigned_one_val]
  have hpos := Nat.two_pow_pos w
  have h0 : ((0 : Fin (2 ^ w)) : Nat) = 0 := rfl
  rw [h0]
  generalize 2 ^ w = n at hpos
  rcases Nat.lt_or_ge n 2 with h | h
  · have h1 : n = 1 := by omega
    subst h1
    rfl
  · rw [Nat.mod_eq_of_lt (by omega : 1 < n), Nat.add_zero, Nat.mod_eq_of_lt (by omega)]

/-- C21. For an array `A` of any shape over a ring, the exact integers included, with
`int` scalars converted into the element type: `(A + A) - A == A`, `A - A == 0`,
`(A - A) + 1 == 1` and `(A - A) - 1 == -1` are true.  They are true as well for `w`-bit
unsigned elements, where the scalars and every result are reduced modulo `2 ^ w`: the
elements of `(A - A) - 1` and the converted `-1` are both `2 ^ w - 1`. -/
theorem subtraction_cancels_addition [Ring R] [DecidableEq R] (M : Nat) (Ns : List Nat)
    (A : num_array R (M :: Ns)) :
    operator_eq id id (M :: Ns)
      (operator_minus_array id id (M :: Ns) (operator_plus_array id id (M :: Ns) A A) A) A =
      true ∧
    operator_eq_scalar id (Int.cast : Int → R) (M :: Ns)
      (operator_minus_array id id (M :: Ns) A A) 0 = true ∧
    operator_eq_scalar id (Int.cast : Int → R) (M :: Ns)
      (operator_plus id (Int.cast : Int → R) (M :: Ns)
        (operator_minus_array id id (M :: Ns) A A) 1) 1 = true ∧
    operator_eq_scalar id (Int.cast : Int → R) (M :: Ns)
      (operator_minus id (Int.cast : Int → R) (M :: Ns)
        (operator_minus_array id id (M :: Ns) A A) 1) (-1) = true ∧
    ∀ (w : Nat) (B : num_array (Fin (2 ^ w)) (M :: Ns)),
      operator_eq id id (M :: Ns)
        (operator_minus_array id id (M :: Ns) (operator_plus_array id id (M :: Ns) B B) B) B =
        true ∧
      operator_eq_scalar id (int_to_unsigned w) (M :: Ns)
        (operator_minus_array id id (M :: Ns) B B) 0 = true ∧
      operator_eq_scalar id (int_to_unsigned w) (M :: Ns)
        (operator_plus id (int_to_unsigned w) (M :: Ns)
          (operator_minus_array id id (M :: Ns) B B) 1) 1 = true ∧
      operator_eq_scalar id (int_to_unsigned w) (M :: Ns)
        (operator_minus id (int_to_unsigned w) (M :: Ns)
          (operator_minus_array id id (M :: Ns) B B) 1) (-1) = true ∧
      (∀ idx : Index (M :: Ns),
        (call (M :: Ns) (operator_minus id (int_to_unsigned w) (M :: Ns)
          (operator_minus_array id id (M :: Ns) B B) 1) idx).val = 2 ^ w - 1) ∧
      (int_to_unsigned w (-1)).val = 2 ^ w - 1 := by
  refine ⟨?_, ?_, ?_, ?_, ?_⟩
  · rw [operator_eq_eq_true]
    intro idx
    rw [call_operator_minus_array, call_operator_plus_array]
    simp
  · rw [operator_eq_scalar_eq_true]
    intro idx
    rw [call_operator_minus_array]
    simp
  · rw [operator_eq_scalar_eq_true]
    intro idx
    rw [call_operator_plus, call_operator_minus_array]
    simp
  · rw [operator_eq_scalar_eq_true]
    intro idx
    rw [call_operator_minus, call_operator_minus_array]
    simp
  · intro w B
    refine ⟨?_, ?_, ?_, ?_, ?_, int_to_unsigned_neg_one_val w⟩
    · rw [operator_eq_eq_true]
      intro idx
      rw [call_operator_minus_array, call_operator_plus_array]
      simp
    · rw [operator_eq_scalar_eq_true]
      intro idx
      rw [call_operator_minus_array, int_to_unsigned_zero]
      simp
    · rw [operator_eq_scalar_eq_true]
      intro idx
      rw [call_operator_plus, call_operator_minus_array]
      simp
    · rw [operator_eq_scalar_eq_true]
      intro idx
      rw [call_operator_minus, call_operator_minus_array, sub_self, unsigned_zero_sub_one]
      simp
    · intro idx
      rw [call_operator_minus, call_operator_minus_array, sub_self, unsigned_zero_sub_one]
      exact int_to_unsigned_neg_one_val w

end cancellation

/-! ## Compound operators on an element of the array itself -/

section by_reference
variable {T : Type}

/-- The loop of a compound operator whose operand is the element `k` of the array, over
increasing indices: an element up to `k` is combined with the value element `k` had
before the loop, a later one with the value element `k` has been given by then. -/
theorem subscript_foldl_by_reference (op : T → T → T) (N : Nat) (k : Fin N)
    (l : List (Fin N)) (hl : l.Pairwise (fun a b => a < b)) (r : num_array T [N]) (j : Fin N) :
    subscript
      (l.foldl (fun (self : num_array T [N]) i =>
        assign self i (op (subscript self i) (subscript self k))) r) j =
      if j ∈ l then
        (if j ≤ k then op (subscript r j) (subscript r k)
        else op (subscript r j)
          (if k ∈ l then op (subscript r k) (subscript r k) else subscript r k))
      else subscript r j := by
  induction l generalizing r with
  | nil => simp
  | cons a l ih =>
    have hpw := List.pairwise_cons.mp hl
    rw [List.foldl_cons, ih hpw.2]
    have key : ∀ x : Fin N, subscript (assign r a (op (subscript r a) (subscript r k))) x =
        if x = a then op (subscript r a) (subscript r k) else subscript r x :=
      fun x => subscript_assign r a x _
    by_cases hjl : j ∈ l
    · have haj : a < j := hpw.1 j hjl
      have hja : j ≠ a := ne_of_gt haj
      rw [if_pos hjl, if_pos (List.mem_cons_of_mem a hjl), key j, if_neg hja]
      by_cases hjk : j ≤ k
      · have hka : k ≠ a := ne_of_gt (lt_of_lt_of_le haj hjk)
        rw [if_pos hjk, if_pos hjk, key k, if_neg hka]
      · rw [if_neg hjk, if_neg hjk, key k]
        by_cases hka : k = a
        · have hkl : k ∉ l := fun h => absurd (hpw.1 k h) (by rw [hka]; exact lt_irrefl a)
          rw [if_pos hka, if_neg hkl, if_pos (by rw [hka]; exact List.mem_cons_self a l)]
          subst hka
          rfl
        · rw [if_neg hka]
          by_cases hkl : k ∈ l
          · rw [if_pos hkl, if_pos (List.mem_cons_of_mem a hkl)]
          · rw [if_neg hkl, if_neg (by simp [hka, hkl])]
    · rw [if_neg hjl, key j]
      by_cases hja : j = a
      · subst hja
        rw [if_pos rfl, if_pos (List.mem_cons_self j l)]
        by_cases hjk : j ≤ k
        · rw [if_pos hjk]
        · have hkj : k < j := lt_of_not_le hjk
          have hkl : k ∉ j :: l := by
            intro h
            rcases List.mem_cons.mp h with h | h
            · exact absurd h (ne_of_lt hkj)
            · exact absurd (hpw.1 k h) (not_lt_of_gt hkj)
          rw [if_neg hjk, if_neg hkl]
      · rw [if_neg hja, if_neg (by simp [hja, hjl])]

/-- After `v op= v[k]` element `j <= k` holds `old_v[j] op old_v[k]`, and element `j > k`
holds `old_v[j] op (old_v[k] op old_v[k])`. -/
theorem call_compound_scalar_by_reference (op : T → T → T) (N : Nat) (v : num_array T [N])
    (k j : Fin N) :
    call [N] (compound_scalar_by_reference op N v k) (j, ()) =
      if j ≤ k then op (call [N] v (j, ())) (call [N] v (k, ()))
      else op (call [N] v (j, ())) (op (call [N] v (k, ())) (call [N] v (k, ()))) := by
  have h := subscript_foldl_by_reference op N k (List.finRange N) (List.pairwise_lt_finRange N)
    v j
  rw [if_pos (List.mem_finRange j), if_pos (List.mem_finRange k)] at h
  exact h

/-- C22, the code at the failing input. On `v = {2,3}` with `k = 0`: `v *= v[0]` leaves
`{4,12}`, `v += v[0]` leaves `{4,7}`, `v -= v[0]` leaves `{0,3}` and `v /= v[0]` leaves
`{1,3}`; with the value `2` that `v[0]` had on entry the operators give `{4,6}`,
`{4,5}`, `{0,1}` and `{1,1}`, and the free operator `v * v[0]`, which works on a copy,
gives `{4,6}`.  Element 1 is combined with the updated element 0. -/
theorem compound_by_reference_reads_updated_element :
    compound_scalar_by_reference (fun (x r : Int) => x * r) 2 test_pair 0 =
      (⟨[4, 12], rfl⟩ : Mathlib.Vector Int 2) ∧
    operator_times_eq [2] test_pair (call [2] test_pair (0, ())) =
      (⟨[4, 6], rfl⟩ : Mathlib.Vector Int 2) ∧
    operator_times id id [2] test_pair (call [2] test_pair (0, ())) =
      (⟨[4, 6], rfl⟩ : Mathlib.Vector Int 2) ∧
    compound_scalar_by_reference (fun (x r : Int) => x + r) 2 test_pair 0 =
      (⟨[4, 7], rfl⟩ : Mathlib.Vector Int 2) ∧
    operator_plus_eq [2] test_pair (call [2] test_pair (0, ())) =
      (⟨[4, 5], rfl⟩ : Mathlib.Vector Int 2) ∧
    compound_scalar_by_reference (fun (x r : Int) => x - r) 2 test_pair 0 =
      (⟨[0, 3], rfl⟩ : Mathlib.Vector Int 2) ∧
    operator_minus_eq [2] test_pair (call [2] test_pair (0, ())) =
      (⟨[0, 1], rfl⟩ : Mathlib.Vector Int 2) ∧
    compound_scalar_by_reference (fun (x r : Int) => Int.tdiv x r) 2 test_pair 0 =
      (⟨[1, 3], rfl⟩ : Mathlib.Vector Int 2) ∧
    @operator_div_eq Int truncating_division [2] test_pair (call [2] test_pair (0, ())) =
      (⟨[1, 1], rfl⟩ : Mathlib.Vector Int 2) :=
  ⟨rfl, rfl, rfl, rfl, rfl, rfl, rfl, rfl, rfl⟩

end by_reference

/-! ## Identities of the determinant and the triple product -/

section identities
variable {R : Type}

theorem triple_product_value [CommRing R] (u v w : num_array R [3]) :
    triple_product id id id id u v w = Except.ok
      (call [3] u (0, ()) * (call [3] v (1, ()) * call [3] w (2, ()) -
          call [3] v (2, ()) * call [3] w (1, ())) +
        call [3] u (1, ()) * (call [3] v (2, ()) * call [3] w (0, ()) -
          call [3] v (0, ()) * call [3] w (2, ())) +
        call [3] u (2, ()) * (call [3] v (0, ()) * call [3] w (1, ()) -
          call [3] v (1, ()) * call [3] w (0, ()))) := by
  have h : triple_product id id id id u v w = Except.ok (dot_product id id 3 u
      (⟨[call [3] v (1, ()) * call [3] w (2, ()) - call [3] v (2, ()) * call [3] w (1, ()),
         call [3] v (2, ()) * call [3] w (0, ()) - call [3] v (0, ()) * call [3] w (2, ()),
         call [3] v (0, ()) * call [3] w (1, ()) - call [3] v (1, ()) * call [3] w (0, ())],
        rfl⟩ : Mathlib.Vector R 3)) := rfl
  rw [h, dot_product_eq_sum, Fin.sum_univ_three]
  rfl

/-- C23. For 2x2 arrays `A`, `B` over a commutative ring, the exact integers included:
`det(matrix_product(A, B)) = det(A) * det(B)` and `det(transpose(A)) = det(A)`. -/
theorem det_multiplicative [CommRing R] (uninitialized uninitialized_t : num_array R [2, 2])
    (A B : num_array R [2, 2]) :
    det (matrix_product id id 2 2 2 uninitialized A B) = det A * det B ∧
    det (transpose 2 2 uninitialized_t A) = det A := by
  have entry : ∀ i j : Fin 2,
      call [2, 2] (matrix_product id id 2 2 2 uninitialized A B) (i, j, ()) =
        call [2, 2] A (i, 0, ()) * call [2, 2] B (0, j, ()) +
          call [2, 2] A (i, 1, ()) * call [2, 2] B (1, j, ()) := by
    intro i j
    rw [call_matrix_product,
      foldl_add_eq_sum (fun k => id (call [2, 2] A (i, k, ())) * id (call [2, 2] B (k, j, ()))),
      Fin.sum_univ_two]
    rfl
  constructor
  · unfold det
    rw [entry, entry, entry, entry]
    ring
  · unfold det
    simp only [call_transpose]
    ring

/-- C24. For length-3 vectors `u`, `v`, `w` over a commutative ring, the exact integers
included: `triple_product(u, v, w)` is `dot_product(u, cross_product(v, w))`, the cross
product being constructed without failure, and `triple_product(v, v, w) = 0`,
`triple_product(w, v, w) = 0`. -/
theorem triple_product_orthogonal [CommRing R] (u v w : num_array R [3]) :
    (∃ c : num_array R [3], cross_product id id v w = Except.ok c ∧
      triple_product id id id id u v w = Except.ok (dot_product id id 3 u c)) ∧
    triple_product id id id id v v w = Except.ok 0 ∧
    triple_product id id id id w v w = Except.ok 0 := by
  refine ⟨⟨_, rfl, rfl⟩, ?_, ?_⟩
  · rw [triple_product_value]
    congr 1
    ring
  · rw [triple_product_value]
    congr 1
    ring

end identities

/-! ## Doubling by the `int` scalar 2 -/

section doubling
variable {T U R : Type}

theorem call_operator_times_converted [Mul R] (cT : T → R) (cU : U → R) (shape : List Nat)
    (A : num_array T shape) (s : U) (idx : Index shape) :
    call shape (operator_times cT cU shape A s) idx = cT (call shape A idx) * cU s := by
  unfold operator_times operator_times_eq
  rw [call_compound_scalar, call_copy]

theorem int_to_unsigned_two (w : Nat) : int_to_unsigned w 2 = 2 := by
  apply Fin.ext
  rw [Fin.coe_ofNat_eq_mod]
  show ((2 : Int) % ((2 ^ w : Nat) : Int)).toNat = 2 % 2 ^ w
  have h : (2 : Int) % ((2 ^ w : Nat) : Int) = ((2 % 2 ^ w : Nat) : Int) := by
    simp
  rw [h]
  exact Int.toNat_natCast _

/-- The product `a * 2` taken in `int` equals the sum `a + a` taken in the `w`-bit
unsigned type exactly when the sum does not wrap. -/
theorem unsigned_double_in_int (w : Nat) (a : Fin (2 ^ w)) :
    (unsigned_to_int w a * 2 == unsigned_to_int w (a + a)) = true ↔ 2 * a.val < 2 ^ w := by
  have hpos := Nat.two_pow_pos w
  have hval : (a + a).val = (a.val + a.val) % 2 ^ w := Fin.val_add a a
  have hmod := Nat.mod_lt (a.val + a.val) hpos
  rw [beq_iff_eq]
  unfold unsigned_to_int
  rw [hval]
  constructor
  · intro h
    have h2 : a.val * 2 = (a.val + a.val) % 2 ^ w := by exact_mod_cast h
    omega
  · intro h
    rw [Nat.mod_eq_of_lt (by omega)]
    push_cast
    ring

/-- Counterexample for C19: for the 16-bit unsigned array `{40000}` (an
`unsigned short`), `A * 2` is computed in `int`, the common type with the scalar, and is
`{80000}`, `A + A` wraps in the element type to `{14464}`, and `A * 2 == A + A`, compared
in `int`, is false. -/
theorem times_two_counterexample :
    call [1] (operator_times (unsigned_to_int 16) id [1] test_ushort (2 : Int)) (0, ()) = 80000 ∧
    (call [1] (operator_plus_array id id [1] test_ushort test_ushort) (0, ())).val = 14464 ∧
    operator_eq id (unsigned_to_int 16) [1]
      (operator_times (unsigned_to_int 16) id [1] test_ushort (2 : Int))
      (operator_plus_array id id [1] test_ushort test_ushort) = false := by
  refine ⟨rfl, rfl, ?_⟩
  decide

/-- C19 as amended. For an array of any shape, `A * 2 == A + A` with the `int` scalar 2:
it is true over a semiring in which both sides are computed, the exact integers
included; it is true for a `w`-bit unsigned element type at least as wide as `int`
(`int_width <= w`), where the scalar is converted to the element type and every sum and
product is reduced modulo `2 ^ w`; and for a `w`-bit unsigned element type that `int`
represents with room for the doubled value (`w + 2 <= int_width`), where `A * 2` is
computed in `int` and `A + A` in the element type, it is true exactly when
`2 * a < 2 ^ w` for every element `a` of `A`. -/
theorem times_two_eq_plus_self [Semiring R] [DecidableEq R] (M : Nat) (Ns : List Nat)
    (int_width : Nat) (A : num_array R (M :: Ns)) :
    operator_eq id id (M :: Ns) (operator_times id id (M :: Ns) A 2)
      (operator_plus_array id id (M :: Ns) A A) = true ∧
    (∀ (w : Nat) (B : num_array (Fin (2 ^ w)) (M :: Ns)), int_width ≤ w →
      operator_eq id id (M :: Ns)
        (operator_times id (int_to_unsigned w) (M :: Ns) B (2 : Int))
        (operator_plus_array id id (M :: Ns) B B) = true ∧
      ∀ idx : Index (M :: Ns),
        (call (M :: Ns) (operator_plus_array id id (M :: Ns) B B) idx).val =
          ((call (M :: Ns) B idx).val + (call (M :: Ns) B idx).val) % 2 ^ w) ∧
    (∀ (w : Nat) (B : num_array (Fin (2 ^ w)) (M :: Ns)), w + 2 ≤ int_width →
      (operator_eq id (unsigned_to_int w) (M :: Ns)
        (operator_times (unsigned_to_int w) id (M :: Ns) B (2 : Int))
        (operator_plus_array id id (M :: Ns) B B) = true ↔
      ∀ idx : Index (M :: Ns), 2 * (call (M :: Ns) B idx).val < 2 ^ w)) := by
  refine ⟨?_, ?_, ?_⟩
  · rw [operator_eq_eq_true]
    intro idx
    rw [call_operator_times, call_operator_plus_array]
    simp [mul_two]
  · intro w B _
    constructor
    · rw [operator_eq_eq_true]
      intro idx
      rw [call_operator_times_converted, call_operator_plus_array, int_to_unsigned_two]
      simp [mul_two]
    · intro idx
      rw [call_operator_plus_array]
      exact Fin.val_add _ _
  · intro w B _
    rw [operator_eq_eq_true]
    constructor
    · intro h idx
      have hidx := h idx
      rw [call_operator_times_converted, call_operator_plus_array] at hidx
      exact (unsigned_double_in_int w _).mp hidx
    · intro h idx
      rw [call_operator_times_converted, call_operator_plus_array]
      exact (unsigned_double_in_int w _).mpr (h idx)

/-- Witness for the amended C19, with a 32-bit `int`: the 32-bit unsigned array
`{2147483648}`, whose doubling wraps on both sides, and the 16-bit unsigned array
`{0,1,2,3}`. -/
theorem times_two_eq_plus_self_witness :
    (32 ≤ 32 ∧
      operator_eq id id [1]
        (operator_times id (int_to_unsigned 32) [1] test_unsigned (2 : Int))
        (operator_plus_array id id [1] test_unsigned test_unsigned) = true) ∧
    (16 + 2 ≤ 32 ∧
      (∀ idx : Index [4], 2 * (call [4] test_ushort_iota idx).val < 2 ^ 16) ∧
      operator_eq id (unsigned_to_int 16) [4]
        (operator_times (unsigned_to_int 16) id [4] test_ushort_iota (2 : Int))
        (operator_plus_array id id [4] test_ushort_iota test_ushort_iota) = true) := by
  have hsmall : ∀ idx : Index [4], 2 * (call [4] test_ushort_iota idx).val < 2 ^ 16 := by
    intro idx
    obtain ⟨i, ⟨⟩⟩ := idx
    fin_cases i <;> decide
  exact ⟨⟨by decide,
      ((times_two_eq_plus_self 1 [] 32 (value_construct [1] (0 : Int))).2.1 32 test_unsigned
        (by decide)).1⟩,
    ⟨by decide, hsmall,
      ((times_two_eq_plus_self 4 [] 32 (value_construct [4] (0 : Int))).2.2 16 test_ushort_iota
        (by decide)).mpr hsmall⟩⟩

end doubling

end tb.math
